import Mathlib

/-!
Verification development for the PLUS successive-pruning impulse solver
(`Simbody/src/PLUSImpulseSolver.cpp`).

Modelling conventions:
* `Real` (C++ double) is modelled by `ℝ`; `std::sqrt` by `Real.sqrt`.
  Definitions touching `ℝ` comparisons use classical decidability and are
  therefore `noncomputable`; concrete evaluations in the theorems below are
  carried out by `simp`/`norm_num` instead of kernel reduction.
* Dense vectors (`Vector`) are `List ℝ`, read with `List.getD _ _ 0` and
  written with `List.set`; the dense symmetric matrix `A` is a function
  `ℕ → ℕ → ℝ` (it is read-only throughout the solver).
* `Array_<T>` element accesses and iterator arithmetic assert their bounds in
  the C++ (debug) build; they are modelled as checked accesses (`List.get?`)
  whose failure propagates as a crash.
* The `FactorQTZ` rank-revealing least-squares factorization is an external
  linear-algebra facility (spec section 6); it is a parameter `lsq` of the
  embedded solver.
* The three potentially unbounded loops (sliding intervals, active-set
  iterations, backtracking line search) receive explicit fuel; running out of
  fuel is distinguished from a crash by the result type `Res`.
-/

noncomputable section
open Classical

/-- Two-dimensional slip-velocity vector (`SimTK::Vec2`). -/
abbrev Vec2R := ℝ × ℝ

/-- Three-dimensional slip-velocity vector (`SimTK::Vec3`). -/
abbrev Vec3R := ℝ × ℝ × ℝ

/-- Dot product of two `Vec2`. -/
def dot2 (a b : Vec2R) : ℝ := a.1 * b.1 + a.2 * b.2

/-- Squared Euclidean norm of a `Vec2` (`Vec2::normSqr`). -/
def normSqr2 (a : Vec2R) : ℝ := a.1 * a.1 + a.2 * a.2

/-- Euclidean norm of a `Vec2` (`Vec2::norm`). -/
def norm2 (a : Vec2R) : ℝ := Real.sqrt (normSqr2 a)

/-- Componentwise difference of two `Vec2`. -/
def sub2 (a b : Vec2R) : Vec2R := (a.1 - b.1, a.2 - b.2)

/-- Componentwise sum of two `Vec2`. -/
def add2 (a b : Vec2R) : Vec2R := (a.1 + b.1, a.2 + b.2)

/-- Scalar multiple of a `Vec2`. -/
def smul2 (s : ℝ) (a : Vec2R) : Vec2R := (s * a.1, s * a.2)

/-- Dot product of two `Vec3`. -/
def dot3 (a b : Vec3R) : ℝ := a.1 * b.1 + a.2.1 * b.2.1 + a.2.2 * b.2.2

/-- Squared Euclidean norm of a `Vec3`. -/
def normSqr3 (a : Vec3R) : ℝ := a.1 * a.1 + a.2.1 * a.2.1 + a.2.2 * a.2.2

/-- Euclidean norm of a `Vec3`. -/
def norm3 (a : Vec3R) : ℝ := Real.sqrt (normSqr3 a)

/-- Componentwise difference of two `Vec3`. -/
def sub3 (a b : Vec3R) : Vec3R := (a.1 - b.1, (a.2.1 - b.2.1, a.2.2 - b.2.2))

/-- Componentwise sum of two `Vec3`. -/
def add3 (a b : Vec3R) : Vec3R := (a.1 + b.1, (a.2.1 + b.2.1, a.2.2 + b.2.2))

/-- Scalar multiple of a `Vec3`. -/
def smul3 (s : ℝ) (a : Vec3R) : Vec3R := (s * a.1, (s * a.2.1, s * a.2.2))

/-- SimTK `clamp(low, v, high)`: `v` forced into `[low, high]`. -/
def clamp (low v high : ℝ) : ℝ := if v < low then low else if v > high then high else v

/-- SimTK `sign` for reals: -1, 0 or 1 (used by `initializeNewton`). -/
def signOf (x : ℝ) : ℝ := if x > 0 then 1 else if x < 0 then -1 else 0

/-- Smooth concave approximation to `min(z,0)` (`softmin0` in the source). -/
def softmin0 (z eps : ℝ) : ℝ := (z - Real.sqrt (z * z + eps)) / 2

/-- Partial derivative of `softmin0` with respect to `z`. -/
def dsoftmin0 (z eps : ℝ) : ℝ := (1 - z / Real.sqrt (z * z + eps)) / 2

/-- Solver-instance configuration, read-only during a solve (spec section 6),
together with the SimTK global tolerances `SignificantReal` and `TinyReal`. -/
structure SolverParams where
  convergenceTol : ℝ
  maxIters : ℕ
  minSmoothness : ℝ
  maxRollingTangVel : ℝ
  cosMaxSlidingDirChange : ℝ
  significantReal : ℝ
  tinyReal : ℝ

/-- `PLUSImpulseSolver::calcSlidingStepLengthToOrigin` (Vec2 overload),
returning the pair (step length, interpolated point `Q`). -/
def calcSlidingStepLengthToOrigin2 (prm : SolverParams) (A B : Vec2R) : ℝ × Vec2R :=
  -- Check whether initial tangential velocity is small (impending slip).
  if normSqr2 A < prm.maxRollingTangVel * prm.maxRollingTangVel then (1, B)
  else
    let P : Vec2R := (0, 0)
    let AtoP := sub2 P A
    let AtoB := sub2 B A
    let ABsqr := normSqr2 AtoB
    -- Ensure line segment is of meaningful length.
    if ABsqr < prm.significantReal then (1, B)
    else
      -- Normalized distance from A to Q.
      let stepLength := clamp 0 (dot2 AtoP AtoB / ABsqr) 1
      (stepLength, add2 A (smul2 stepLength AtoB))

/-- `PLUSImpulseSolver::calcSlidingStepLengthToOrigin` (Vec3 overload). -/
def calcSlidingStepLengthToOrigin3 (prm : SolverParams) (A B : Vec3R) : ℝ × Vec3R :=
  if normSqr3 A < prm.maxRollingTangVel * prm.maxRollingTangVel then (1, B)
  else
    let P : Vec3R := (0, (0, 0))
    let AtoP := sub3 P A
    let AtoB := sub3 B A
    let ABsqr := normSqr3 AtoB
    if ABsqr < prm.significantReal then (1, B)
    else
      let stepLength := clamp 0 (dot3 AtoP AtoB / ABsqr) 1
      (stepLength, add3 A (smul3 stepLength AtoB))

/-- The two closed-form roots `sol1`, `sol2` computed by
`PLUSImpulseSolver::calcSlidingStepLengthToMaxChange` (Vec2 overload); the
Maple-generated straight-line computation is transcribed with the reused
temporaries `t1,t2,t5` split into primed names. -/
def calcMaxChangeSols2 (prm : SolverParams) (A B : Vec2R) : ℝ × ℝ :=
  let v := sub2 B A
  let t1 := prm.cosMaxSlidingDirChange * prm.cosMaxSlidingDirChange
  let t2 := t1 - 1
  let t3a := A.1 * v.2 - A.2 * v.1
  let t3 := Real.sqrt (-t1 * t2 * t3a * t3a)
  let t4 := t2 * v.1 * A.1
  let t5 := A.2 * v.2
  let t2' := t2 * t5
  let t6 := v.2 * v.2
  let t7 := v.1 * v.1
  let t8 := t6 + t7
  let t9 := A.2 * A.2
  let t10 := A.1 * A.1
  let t1' := t1 * (t10 * t8 + t8 * t9) - t10 * t7 - t6 * t9 - 2 * t5 * A.1 * v.1
  let t5' := t10 + t9
  let t1'' := 1 / t1'
  (-t1'' * t5' * (t2' + t4 + t3), -t1'' * t5' * (t2' + t4 - t3))

/-- Root selection at the end of `calcSlidingStepLengthToMaxChange`:
discard a negative root, otherwise take the smaller. -/
def selectMaxChangeSol (sols : ℝ × ℝ) : ℝ :=
  if sols.1 < 0 then sols.2
  else if sols.2 < 0 then sols.1
  else min sols.1 sols.2

/-- `PLUSImpulseSolver::calcSlidingStepLengthToMaxChange` (Vec2 overload). -/
def calcSlidingStepLengthToMaxChange2 (prm : SolverParams) (A B : Vec2R) : ℝ :=
  selectMaxChangeSol (calcMaxChangeSols2 prm A B)

/-- The two closed-form roots computed by the Vec3 overload of
`calcSlidingStepLengthToMaxChange`. -/
def calcMaxChangeSols3 (prm : SolverParams) (A B : Vec3R) : ℝ × ℝ :=
  let v := sub3 B A
  let t1 := prm.cosMaxSlidingDirChange * prm.cosMaxSlidingDirChange
  let t2 := t1 - 1
  let t3 := A.1 * A.1
  let t4 := v.1 * v.1
  let t5 := A.2.2 * A.2.2
  let t6 := v.2.1 * v.2.1
  let t7 := A.2.1 * A.2.1
  let t8 := A.2.1 * v.2.1
  let t9 := A.1 * v.1
  let t10 := Real.sqrt (-(t1 * t2 * (t3 * t6 + t4 * t7 + t5 * (t6 + t4)
        + (-2 * A.2.2 * (t9 + t8) + (t7 + t3) * v.2.2) * v.2.2 - 2 * t8 * t9)))
  let t11 := t9 * t2
  let t12 := t8 * t2
  let t13 := A.2.2 * v.2.2
  let t2' := t13 * t2
  let t14 := v.2.2 * v.2.2
  let t15 := t6 + t14 + t4
  let t1' := t1 * (t15 * t3 + t15 * t5 + t15 * t7) - t14 * t5 - t3 * t4 - t6 * t7
        + t9 * (-2 * t8 - 2 * t13) - 2 * t13 * t8
  let t3' := t7 + t3 + t5
  let t1'' := 1 / t1'
  (-(t12 + t2' + t11 + t10) * t1'' * t3', -(t12 + t2' + t11 - t10) * t1'' * t3')

/-- `PLUSImpulseSolver::calcSlidingStepLengthToMaxChange` (Vec3 overload). -/
def calcSlidingStepLengthToMaxChange3 (prm : SolverParams) (A B : Vec3R) : ℝ :=
  selectMaxChangeSol (calcMaxChangeSols3 prm A B)

/-! Data model: the constraint runtime records mutated by the solver. -/

/-- `ImpulseSolver::ContactType` of a unilateral contact. -/
inductive ContactType where
  | Participating
  | Known
  | Observing
deriving DecidableEq

/-- `ImpulseSolver::UniCond`: runtime state of a unilateral contact normal. -/
inductive UniCond where
  | UniActive
  | UniKnown
  | UniOff
deriving DecidableEq

/-- `ImpulseSolver::FricCond`: runtime state of a frictional element. -/
inductive FricCond where
  | FricOff
  | Rolling
  | Sliding
  | Impending
deriving DecidableEq

/-- `ImpulseSolver::UncondRT`: an unconditional constraint's multiplier list. -/
structure UncondRT where
  m_mults : List ℕ


/-- `ImpulseSolver::BoundedRT`: a scalar constraint with constant bounds. -/
structure BoundedRT where
  m_ix : ℕ
  m_lb : ℝ
  m_ub : ℝ

/-- `ImpulseSolver::UniContactRT`: a unilateral contact (normal index `m_Nk`,
friction indices `m_Fk`) together with the runtime fields the solver sets.
The `NaN` written into `m_slipVel`/`m_slipMag` for passive contacts ("for bug
catching") is modelled by the junk value 0; those fields are never read for a
`FricOff` contact. -/
structure UniContactRT where
  m_type : ContactType
  m_Nk : ℕ
  m_Fk : List ℕ
  m_effMu : ℝ
  m_sign : ℝ
  m_contactCond : UniCond
  m_frictionCond : FricCond
  m_slipVel : Vec2R
  m_slipMag : ℝ

/-- `UniContactRT::hasFriction()`: whether the friction index list is
non-empty. -/
def UniContactRT.hasFriction (rt : UniContactRT) : Bool := !rt.m_Fk.isEmpty

/-! Local utilities from the anonymous namespace of the source file. -/

/-- `multRowTimesActiveCol`: multiply the active entries of row `row` of the
full matrix `A` by a packed column holding only active entries. -/
def multRowTimesActiveCol (A : ℕ → ℕ → ℝ) (row : ℕ) (active : List ℕ)
    (colActive : List ℝ) : ℝ :=
  (List.zip active colActive).foldl (fun acc p => acc + A row p.1 * p.2) 0

/-- `multRowTimesSparseCol`: multiply row `row` of `A` by a sparse full-length
column with the indicated non-zero entries. -/
def multRowTimesSparseCol (A : ℕ → ℕ → ℝ) (row : ℕ) (nonZero : List ℕ)
    (sparseCol : List ℝ) : ℝ :=
  nonZero.foldl (fun acc mx => acc + A row mx * sparseCol.getD mx 0) 0

/-- `addInActiveCol`: unpack an active column and add its values into a full
column. -/
def addInActiveCol (active : List ℕ) (colActive : List ℝ) (colFull : List ℝ) :
    List ℝ :=
  (List.zip active colActive).foldl
    (fun cf p => cf.set p.1 (cf.getD p.1 0 + p.2)) colFull

/-- `sort2`: order a pair ascending. -/
def sort2 (a b : ℕ) : ℕ × ℕ := if a > b then (b, a) else (a, b)

/-- `sort3`: order a triple ascending, by three `sort2` exchanges as in the
source. -/
def sort3 (a b c : ℕ) : ℕ × ℕ × ℕ :=
  let (a1, b1) := sort2 a b
  let (b2, c2) := sort2 b1 c
  let (a3, b3) := sort2 a1 b2
  (a3, b3, c2)

/-- `Vector::norm()`: Euclidean norm of a packed vector. -/
def vecNorm (v : List ℝ) : ℝ := Real.sqrt (v.foldl (fun s x => s + x * x) 0)

/-- `Array_::eraseFast`: erase the element at position `i` by moving the last
element into its place (constant time, does not preserve order). Out-of-range
positions are a bounds-assertion failure, modelled as `none`. -/
def eraseFastAt (l : List ℕ) (i : ℕ) : Option (List ℕ) :=
  match l.getLast? with
  | none => none
  | some lastv => if i < l.length then some ((l.set i lastv).dropLast) else none

/-- `PLUSImpulseSolver::fillMult2Active`: rebuild the multiplier-to-active map
(`none` = invalid) from the ordered active list. -/
def fillMult2Active (active : List ℕ) (m : ℕ) : List (Option ℕ) :=
  (List.range active.length).foldl
    (fun m2a aj => m2a.set (active.getD aj 0) (some aj))
    (List.replicate m none)

/-! The frictional classifier (`PLUSImpulseSolver::classifyFrictionals`). -/

/-- Classification of a single unilateral contact at the start of a sliding
interval: set the contact condition from the contact type, then mark the
frictional element Sliding or Rolling from the current slip velocity found in
`verrLeft`. The source asserts `Fk.size()==2`; any other size is a crash. -/
def classifyOne (prm : SolverParams) (verrLeft : List ℝ) (rt : UniContactRT) :
    Option UniContactRT :=
  let rt1 :=
    match rt.m_type with
    | .Participating => { rt with m_contactCond := .UniActive }
    | .Known => { rt with m_contactCond := .UniKnown }
    | .Observing => { rt with m_contactCond := .UniOff }
  if rt1.m_type = .Observing ∨ rt1.hasFriction = false then
    -- slipVel/slipMag are set to NaN in the source "for bug catching";
    -- modelled by the junk value 0 (never read while FricOff).
    some { rt1 with m_frictionCond := .FricOff, m_slipVel := (0, 0), m_slipMag := 0 }
  else
    match rt1.m_Fk with
    | [f0, f1] =>
      let v0 := verrLeft.getD f0 0
      let v1 := verrLeft.getD f1 0
      let tmag := Real.sqrt (0 + v0 * v0 + v1 * v1)
      some { rt1 with
              m_slipVel := (v0, v1), m_slipMag := tmag,
              m_frictionCond :=
                if tmag > prm.maxRollingTangVel then .Sliding else .Rolling }
    | _ => none

/-- `PLUSImpulseSolver::classifyFrictionals` over the whole contact array. -/
def classifyFrictionals (prm : SolverParams) (verrLeft : List ℝ) :
    List UniContactRT → Option (List UniContactRT)
  | [] => some []
  | rt :: rest =>
    match classifyOne prm verrLeft rt with
    | none => none
    | some rt' =>
      match classifyFrictionals prm verrLeft rest with
      | none => none
      | some rest' => some (rt' :: rest')

/-! Residual evaluation
(`PLUSImpulseSolver::updateDirectionsAndCalcCurrentError`). -/

/-- Per-contact part of `updateDirectionsAndCalcCurrentError`: for a Sliding
or Impending frictional contact whose normal is not `UniOff`, replace the two
friction rows of the residual; for Impending slip, first refresh the slip
direction from the current impulse. -/
def udceContact (A : ℕ → ℕ → ℝ) (active : List ℕ) (m2a : List (Option ℕ))
    (verrExpand piELeft piActive : List ℝ) (rt : UniContactRT) (err : List ℝ) :
    Option (UniContactRT × List ℝ) :=
  if rt.m_contactCond = .UniOff ∨ rt.hasFriction = false then some (rt, err)
  else if ¬(rt.m_frictionCond = .Sliding ∨ rt.m_frictionCond = .Impending) then
    some (rt, err)
  else
    match rt.m_Fk with
    | [mx, my] =>
      let mz := rt.m_Nk
      let rt' :=
        if rt.m_frictionCond = .Impending then
          -- Update slip direction to [Ax Ay]*(pi+piE).
          let d : Vec2R :=
            (multRowTimesActiveCol A mx active piActive + verrExpand.getD mx 0,
             multRowTimesActiveCol A my active piActive + verrExpand.getD my 0)
          { rt with m_slipVel := d, m_slipMag := norm2 d }
        else rt
      let mu := rt.m_effMu
      match m2a.getD mx none, m2a.getD my none with
      | some ax, some ay =>
        let pix := piActive.getD ax 0
        let piy := piActive.getD ay 0
        let pizE := piELeft.getD mz 0
        let err1 := err.set ax (rt'.m_slipMag * pix + mu * rt'.m_slipVel.1 * pizE)
        let err2 := err1.set ay (rt'.m_slipMag * piy + mu * rt'.m_slipVel.2 * pizE)
        if rt.m_contactCond = .UniActive then
          match m2a.getD mz none with
          | some az =>
            let piz := piActive.getD az 0
            -- errx = |v| pi_x + mu vx [piE + min(pi_z,0)]  [erry similar]
            let minz := min piz 0
            let err3 := err2.set ax (err2.getD ax 0 + mu * rt'.m_slipVel.1 * minz)
            let err4 := err3.set ay (err3.getD ay 0 + mu * rt'.m_slipVel.2 * minz)
            some (rt', err4)
          | none => none
        else some (rt', err2)
      | _, _ => none
    | _ => none

/-- Fold of `udceContact` over the contact array, rebuilding it in order. -/
def udceGo (A : ℕ → ℕ → ℝ) (active : List ℕ) (m2a : List (Option ℕ))
    (verrExpand piELeft piActive : List ℝ) :
    List UniContactRT → List ℝ → Option (List UniContactRT × List ℝ)
  | [], err => some ([], err)
  | rt :: rest, err =>
    match udceContact A active m2a verrExpand piELeft piActive rt err with
    | none => none
    | some (rt', err') =>
      match udceGo A active m2a verrExpand piELeft piActive rest err' with
      | none => none
      | some (rest', err'') => some (rt' :: rest', err'')

/-- `PLUSImpulseSolver::updateDirectionsAndCalcCurrentError`: initialize every
active row as though rolling (`err = A pi - rhs`), then replace the error
equations of Sliding and Impending frictional contacts. -/
def updateDirectionsAndCalcCurrentError (A : ℕ → ℕ → ℝ) (active : List ℕ)
    (m2a : List (Option ℕ)) (verrExpand rhsActive piELeft : List ℝ)
    (cts : List UniContactRT) (piActive : List ℝ) :
    Option (List UniContactRT × List ℝ) :=
  let err0 := (List.range active.length).map fun ai =>
    multRowTimesActiveCol A (active.getD ai 0) active piActive - rhsActive.getD ai 0
  udceGo A active m2a verrExpand piELeft piActive cts err0

/-! Newton initialization (`PLUSImpulseSolver::initializeNewton`). -/

/-- The guess-a-small-separating-impulse loop at the end of
`initializeNewton`: for every `UniActive` contact normal, seed
`piActive[ax] = 0.01 * sign(rhsActive[ax])`. -/
def seedImpacters (m2a : List (Option ℕ)) (rhs : List ℝ) :
    List UniContactRT → List ℝ → Option (List ℝ)
  | [], pia => some pia
  | rt :: rest, pia =>
    if rt.m_contactCond = .UniActive then
      match m2a.getD rt.m_Nk none with
      | none => none
      | some ax =>
        seedImpacters m2a rhs rest (pia.set ax ((1 / 100) * signOf (rhs.getD ax 0)))
    else seedImpacters m2a rhs rest pia

/-- `PLUSImpulseSolver::initializeNewton`: restrict `A` to the active
submatrix, set `rhsActive = verrLeft - verrExpand` on active rows, transfer
the previous in-bounds impulse `piGuess` to `piActive`, then seed impacters. -/
def initializeNewton (A : ℕ → ℕ → ℝ) (active : List ℕ) (m2a : List (Option ℕ))
    (verrLeft verrExpand piGuess : List ℝ) (cts : List UniContactRT) :
    Option ((ℕ → ℕ → ℝ) × List ℝ × List ℝ) :=
  let Jac : ℕ → ℕ → ℝ := fun ai aj => A (active.getD ai 0) (active.getD aj 0)
  let rhs := active.map fun mj => verrLeft.getD mj 0 - verrExpand.getD mj 0
  let pia0 := active.map fun mj => piGuess.getD mj 0
  (seedImpacters m2a rhs cts pia0).map fun pia => (Jac, rhs, pia)

/-! Jacobian maintenance (`PLUSImpulseSolver::updateJacobianForSliding`).
The Jacobian is represented as a function of (row, column) active indices;
the sequential C++ writes are translated so that a later write wins. -/

/-- Rewrite the two friction rows of the Jacobian for one Sliding or
Impending frictional contact whose normal is `UniActive` or `UniKnown`. -/
def ujsContact (prm : SolverParams) (A : ℕ → ℕ → ℝ) (active : List ℕ)
    (m2a : List (Option ℕ)) (piELeft pia : List ℝ) (rt : UniContactRT)
    (Jac : ℕ → ℕ → ℝ) : Option (ℕ → ℕ → ℝ) :=
  if ¬((rt.m_contactCond = .UniActive ∨ rt.m_contactCond = .UniKnown)
        ∧ rt.hasFriction = true) then some Jac
  else if ¬(rt.m_frictionCond = .Sliding ∨ rt.m_frictionCond = .Impending) then
    some Jac
  else
    match rt.m_Fk with
    | [mx, my] =>
      match m2a.getD mx none, m2a.getD my none with
      | some ax, some ay =>
        let mu := rt.m_effMu
        let pix := pia.getD ax 0
        let piy := pia.getD ay 0
        let d := rt.m_slipVel
        let dnorm := rt.m_slipMag
        let dhat : Vec2R := if dnorm > prm.tinyReal then (d.1 / dnorm, d.2 / dnorm) else (0, 0)
        -- zero the rows
        let JacZ : ℕ → ℕ → ℝ := fun i j => if i = ax ∨ i = ay then 0 else Jac i j
        if rt.m_frictionCond = .Impending then
          let mz := rt.m_Nk
          let pizE := piELeft.getD mz 0
          if rt.m_contactCond = .UniActive then
            -- Impending, normal is active.
            match m2a.getD mz none with
            | some az =>
              let piz := pia.getD az 0
              let minz := softmin0 piz prm.minSmoothness
              let dminz := dsoftmin0 piz prm.minSmoothness
              -- generic fill of rows ax/ay over the active columns; the
              -- row-ay store is the later one, so it wins on aliasing
              let fill : ℕ → ℕ → ℝ := fun i j =>
                if j < active.length then
                  let mi := active.getD j 0
                  let s := dot2 dhat (A mx mi, A my mi)
                  if i = ay then s * piy + mu * A my mi * (pizE + minz)
                  else s * pix + mu * A mx mi * (pizE + minz)
                else 0
              some (fun i j =>
                if i = ax ∨ i = ay then
                  fill i j
                  + (if i = ax ∧ j = ax then dnorm else 0)
                  + (if i = ay ∧ j = ay then dnorm else 0)
                  + (if i = ax ∧ j = az then mu * d.1 * dminz else 0)
                  + (if i = ay ∧ j = az then mu * d.2 * dminz else 0)
                else JacZ i j)
            | none => none
          else
            -- Impending, normal is an expander (UniKnown).
            let fill : ℕ → ℕ → ℝ := fun i j =>
              if j < active.length then
                let mi := active.getD j 0
                let s := dot2 dhat (A mx mi, A my mi)
                if i = ay then s * piy + mu * A my mi * pizE
                else s * pix + mu * A mx mi * pizE
              else 0
            some (fun i j =>
              if i = ax ∨ i = ay then
                fill i j
                + (if i = ax ∧ j = ax then dnorm else 0)
                + (if i = ay ∧ j = ay then dnorm else 0)
              else JacZ i j)
        else
          -- Slipping.
          if rt.m_contactCond = .UniActive then
            match m2a.getD rt.m_Nk none with
            | some az =>
              let piz := pia.getD az 0
              let dminz := dsoftmin0 piz prm.minSmoothness
              some (fun i j =>
                if i = ay ∧ j = az then mu * d.2 * dminz
                else if i = ax ∧ j = az then mu * d.1 * dminz
                else if (i = ax ∧ j = ax) ∨ (i = ay ∧ j = ay) then dnorm
                else JacZ i j)
            | none => none
          else
            some (fun i j =>
              if (i = ax ∧ j = ax) ∨ (i = ay ∧ j = ay) then dnorm else JacZ i j)
      | _, _ => none
    | _ => none

/-- Fold of `ujsContact` over the contact array. -/
def ujsGo (prm : SolverParams) (A : ℕ → ℕ → ℝ) (active : List ℕ)
    (m2a : List (Option ℕ)) (piELeft pia : List ℝ) :
    List UniContactRT → (ℕ → ℕ → ℝ) → Option (ℕ → ℕ → ℝ)
  | [], Jac => some Jac
  | rt :: rest, Jac =>
    match ujsContact prm A active m2a piELeft pia rt Jac with
    | none => none
    | some Jac' => ujsGo prm A active m2a piELeft pia rest Jac'

/-- `PLUSImpulseSolver::updateJacobianForSliding`. -/
def updateJacobianForSliding (prm : SolverParams) (A : ℕ → ℕ → ℝ)
    (active : List ℕ) (m2a : List (Option ℕ)) (piELeft : List ℝ)
    (cts : List UniContactRT) (pia : List ℝ) (Jac : ℕ → ℕ → ℝ) :
    Option (ℕ → ℕ → ℝ) :=
  ujsGo prm A active m2a piELeft pia cts Jac

/-! The Newton engine: backtracking line search and Newton iteration. -/

/-- State carried between Newton steps. -/
structure NewtonState where
  pia : List ℝ
  err : List ℝ
  errNorm : ℝ
  cts : List UniContactRT
  Jac : ℕ → ℕ → ℝ

/-- The backtracking line search inside the Newton loop of `solve`: try
`piActive = piSave - frac*dpi` with `frac` starting at 1 and halving; accept
the first strict norm decrease, or accept the (possibly worse) current point
once `frac*SearchReduceFac < MinFrac` with `MinFrac = 0.01`. The search
always stops after finitely many halvings; the fuel only models that bound. -/
def lineSearch (A : ℕ → ℕ → ℝ) (active : List ℕ) (m2a : List (Option ℕ))
    (verrExpand rhs piELeft : List ℝ) :
    ℕ → List ℝ → List ℝ → ℝ → ℝ → List UniContactRT →
    Option (List ℝ × List ℝ × ℝ × List UniContactRT)
  | 0, _, _, _, _, _ => none
  | n + 1, piSave, dpi, frac, errNorm, cts =>
    let pia := List.zipWith (fun a b => a - frac * b) piSave dpi
    match updateDirectionsAndCalcCurrentError A active m2a verrExpand rhs piELeft cts pia with
    | none => none
    | some (cts', err') =>
      let normNow := vecNorm err'
      if normNow < errNorm then some (pia, err', normNow, cts')
      else
        let frac' := frac * (1 / 2)
        if frac' * (1 / 2) < 1 / 100 then
          -- line search stuck: accept the small norm increase
          some (pia, err', normNow, cts')
        else lineSearch A active m2a verrExpand rhs piELeft n piSave dpi frac' errNorm cts'

/-- The Newton iteration of `solve` (the `while errNorm > tol` loop): solve
`JacActive*dpi = errActive` with the external least-squares backend `lsq`,
line-search, stop on convergence or after `maxIters` iterations, else refresh
the sliding rows of the Jacobian and repeat. The argument `k` counts the
iterations still allowed after the current one. -/
def newtonGo (prm : SolverParams) (lsq : (ℕ → ℕ → ℝ) → List ℝ → List ℝ)
    (A : ℕ → ℕ → ℝ) (active : List ℕ) (m2a : List (Option ℕ))
    (verrExpand rhs piELeft : List ℝ) (lsFuel : ℕ) :
    ℕ → NewtonState → Option NewtonState
  | k, st =>
    if st.errNorm > prm.convergenceTol then
      let dpi := lsq st.Jac st.err
      match lineSearch A active m2a verrExpand rhs piELeft lsFuel st.pia dpi 1 st.errNorm st.cts with
      | none => none
      | some (pia', err', errNorm', cts') =>
        if errNorm' < prm.convergenceTol then some ⟨pia', err', errNorm', cts', st.Jac⟩
        else
          match k with
          | 0 => some ⟨pia', err', errNorm', cts', st.Jac⟩
          | k' + 1 =>
            match updateJacobianForSliding prm A active m2a piELeft cts' pia' st.Jac with
            | none => none
            | some J' =>
              newtonGo prm lsq A active m2a verrExpand rhs piELeft lsFuel k'
                ⟨pia', err', errNorm', cts', J'⟩
    else some st

/-! Projection of the Newton result into admissibility (`solve`, the blocks
after the Newton loop), recording the worst violation of each category. -/

/-- UNCONDITIONAL projection: unpack `piActive` into `piGuess` for every
multiplier of one unconditional constraint. -/
def projMults (m2a : List (Option ℕ)) (pia : List ℝ) :
    List ℕ → List ℝ → Option (List ℝ)
  | [], pg => some pg
  | mx :: rest, pg =>
    match m2a.getD mx none with
    | none => none
    | some ax => projMults m2a pia rest (pg.set mx (pia.getD ax 0))

/-- UNCONDITIONAL projection over all unconditional constraints. -/
def projectUncond (m2a : List (Option ℕ)) (pia : List ℝ) :
    List UncondRT → List ℝ → Option (List ℝ)
  | [], pg => some pg
  | rt :: rest, pg =>
    match projMults m2a pia rt.m_mults pg with
    | none => none
    | some pg' => projectUncond m2a pia rest pg'

/-- BOUNDED projection: clamp each active bounded multiplier into its bounds,
tracking the worst clamping distance (`worstBounded`, `worstBoundedValue`). -/
def projectBounded (m2a : List (Option ℕ)) (pia : List ℝ) :
    List BoundedRT → ℕ → List ℝ × ℕ × ℝ → List ℝ × ℕ × ℝ
  | [], _, acc => acc
  | rt :: rest, k, (pg, wk, wv) =>
    match m2a.getD rt.m_ix none with
    | none => projectBounded m2a pia rest (k + 1) (pg, wk, wv)  -- not active
    | some ax =>
      let pgv := clamp rt.m_lb (pia.getD ax 0) rt.m_ub
      let pg' := pg.set rt.m_ix pgv
      let errv := |pia.getD ax 0 - pgv|
      if errv > wv then projectBounded m2a pia rest (k + 1) (pg', k, errv)
      else projectBounded m2a pia rest (k + 1) (pg', wk, wv)

/-- The in-bounds value stored for a `UniActive` contact normal: keep the
impulse only if it is compressive for the contact's sign convention
(`rt.m_sign*piActive[ax] < 0 ? piActive[ax] : 0`). -/
def uniNormalPiAdj (sgn piAx : ℝ) : ℝ := if sgn * piAx < 0 then piAx else 0

/-- UNI CONTACT NORMAL projection, tracking the worst violation. -/
def projectUniNormals (m2a : List (Option ℕ)) (pia : List ℝ) :
    List UniContactRT → ℕ → List ℝ × ℕ × ℝ → Option (List ℝ × ℕ × ℝ)
  | [], _, acc => some acc
  | rt :: rest, k, (pg, wk, wv) =>
    if rt.m_contactCond = .UniOff ∨ rt.m_contactCond = .UniKnown then
      projectUniNormals m2a pia rest (k + 1) (pg.set rt.m_Nk 0, wk, wv)
    else
      -- Participating and active (the source asserts UniActive here).
      match m2a.getD rt.m_Nk none with
      | none => none
      | some ax =>
        let piAdj := uniNormalPiAdj rt.m_sign (pia.getD ax 0)
        let pg' := pg.set rt.m_Nk piAdj
        let errv := |pia.getD ax 0 - piAdj|
        if errv > wv then projectUniNormals m2a pia rest (k + 1) (pg', k, errv)
        else projectUniNormals m2a pia rest (k + 1) (pg', wk, wv)

/-- Tangential magnitude `tmag` of one contact's friction components of
`piActive` (the Rolling cone check). -/
def fricTmagSq (m2a : List (Option ℕ)) (pia : List ℝ) :
    List ℕ → ℝ → Option ℝ
  | [], acc => some acc
  | mx :: rest, acc =>
    match m2a.getD mx none with
    | none => none
    | some ax => fricTmagSq m2a pia rest (acc + pia.getD ax 0 * pia.getD ax 0)

/-- Copy the possibly cone-scaled friction components into `piGuess`. -/
def fricCopyScaled (m2a : List (Option ℕ)) (pia : List ℝ) (scale : ℝ) :
    List ℕ → List ℝ → Option (List ℝ)
  | [], pg => some pg
  | mx :: rest, pg =>
    match m2a.getD mx none with
    | none => none
    | some ax => fricCopyScaled m2a pia scale rest (pg.set mx (scale * pia.getD ax 0))

/-- UNI CONTACT FRICTION projection: for Rolling contacts, check the friction
cone `tmag <= mu*|piGuess[Nk]+piELeft[Nk]|` and record the worst excess;
scale the tangential copy back onto the cone. -/
def projectUniFriction (m2a : List (Option ℕ)) (pia piELeft : List ℝ) :
    List UniContactRT → ℕ → List ℝ × ℕ × ℝ → Option (List ℝ × ℕ × ℝ)
  | [], _, acc => some acc
  | rt :: rest, k, (pg, wk, wv) =>
    if rt.m_contactCond = .UniOff ∨ rt.hasFriction = false then
      projectUniFriction m2a pia piELeft rest (k + 1) (pg, wk, wv)
    else
      match rt.m_Fk.get? 0 with
      | none => none
      | some f0 =>
        match m2a.getD f0 none with
        | none => none  -- the source asserts mult2active[Fk[0]].isValid()
        | some _ =>
          let mu := rt.m_effMu
          let contd := fun (scale : ℝ) (wk' : ℕ) (wv' : ℝ) =>
            match fricCopyScaled m2a pia scale rt.m_Fk pg with
            | none => none
            | some pg' => projectUniFriction m2a pia piELeft rest (k + 1) (pg', wk', wv')
          if rt.m_frictionCond = .Rolling then
            match fricTmagSq m2a pia rt.m_Fk 0 with
            | none => none
            | some tsq =>
              let tmag := Real.sqrt tsq
              let nmag := |pg.getD rt.m_Nk 0 + piELeft.getD rt.m_Nk 0|
              if tmag > mu * nmag then
                let errv := tmag - mu * nmag
                if errv > wv then contd (mu * nmag / tmag) k errv
                else contd (mu * nmag / tmag) wk wv
              else contd 1 wk wv
          else contd 1 wk wv

/-! The pruning step at the bottom of the active-set loop. -/

/-- The `mustReleaseFriction` branch: switch contact `k` from Rolling to
Impending. The source reads `uniContact[worstFric]` and `Fk[0]`, `Fk[1]`
unconditionally (bounds-asserted `Array_` accesses, hence checked here); the
`ActiveIndex` values it loads from `mult2active` are only used by debug
output and are not modelled. -/
def releaseFriction (cts : List UniContactRT) (active : List ℕ) (k : ℕ) :
    Option (List UniContactRT × List ℕ) :=
  match cts.get? k with
  | none => none
  | some rt =>
    match rt.m_Fk.get? 0, rt.m_Fk.get? 1 with
    | some _, some _ =>
      some (cts.set k { rt with m_frictionCond := .Impending }, active)
    | _, _ => none

/-- Prune exactly one constraint after a failed violation test: release the
worst offending contact normal (erasing its normal and friction rows from
`active`, highest active position first) unless that contact is Rolling, in
which case — and also when friction is the worst offender — force the
offending contact from Rolling to Impending. -/
def pruneWorst (m2a : List (Option ℕ)) (cts : List UniContactRT)
    (active : List ℕ) (wN : ℕ) (wNv : ℝ) (wF : ℕ) (wFv : ℝ) :
    Option (List UniContactRT × List ℕ) :=
  if wNv > wFv then
    match cts.get? wN with
    | none => none
    | some rt =>
      if rt.hasFriction = false ∨ rt.m_frictionCond ≠ .Rolling then
        let cts' := cts.set wN { rt with m_contactCond := .UniOff }
        if rt.hasFriction = false then
          match m2a.getD rt.m_Nk none with
          | none => none
          | some i => (eraseFastAt active i).map fun act' => (cts', act')
        else
          match rt.m_Fk.get? 0, rt.m_Fk.get? 1 with
          | some f0, some f1 =>
            match m2a.getD rt.m_Nk none, m2a.getD f0 none, m2a.getD f1 none with
            | some a, some b, some c =>
              let abc := sort3 a b c
              match eraseFastAt active abc.2.2 with
              | none => none
              | some act1 =>
                match eraseFastAt act1 abc.2.1 with
                | none => none
                | some act2 =>
                  (eraseFastAt act2 abc.1).map fun act3 => (cts', act3)
            | _, _, _ => none
          | _, _ => none
      else
        -- it's Rolling, so that must go first: worstFric := worstUniNormal
        releaseFriction cts active wN
  else releaseFriction cts active wF

/-! The active-set loop of one sliding interval. -/

/-- Result of the embedded `solve`: crashes (failed assertions /
out-of-bounds accesses) are distinguished from loop-fuel exhaustion. -/
inductive Res (α : Type) where
  | ok : α → Res α
  | crash : Res α
  | fuelOut : Res α

/-- The per-interval context of the active-set loop (solver configuration,
external least-squares backend, problem data and per-interval vectors). -/
structure ASCtx where
  prm : SolverParams
  lsq : (ℕ → ℕ → ℝ) → List ℝ → List ℝ
  A : ℕ → ℕ → ℝ
  m : ℕ
  verrLeft : List ℝ
  verrExpand : List ℝ
  piELeft : List ℝ
  unconditional : List UncondRT
  bounded : List BoundedRT
  lsFuel : ℕ

/-- State at the top of an active-set iteration. The ghost field `trace`
records `m_active` at every iteration entry (for stating invariants); it does
not influence the computation. -/
structure ASState where
  active : List ℕ
  piGuess : List ℝ
  cts : List UniContactRT
  trace : List (List ℕ)

/-- State on leaving the active-set loop. -/
structure ASOut where
  active : List ℕ
  piActive : List ℝ
  piGuess : List ℝ
  cts : List UniContactRT
  trace : List (List ℕ)

/-- Outcome of one active-set iteration. -/
inductive ASStepRes where
  | done : ASOut → ASStepRes
  | next : ASState → ASStepRes
  | fail : ASStepRes

/-- One iteration of the active-set loop (source lines 255-517): rebuild
`mult2active`, initialize and run Newton, project into admissibility while
recording the worst violation per category, accept if all worst violations
are at most `SignificantReal`, otherwise prune exactly one constraint. -/
def asStep (cx : ASCtx) (st : ASState) : ASStepRes :=
  let trace := st.trace ++ [st.active]
  let m2a := fillMult2Active st.active cx.m
  match initializeNewton cx.A st.active m2a cx.verrLeft cx.verrExpand st.piGuess st.cts with
  | none => .fail
  | some (Jac0, rhs, pia0) =>
    match updateDirectionsAndCalcCurrentError cx.A st.active m2a cx.verrExpand rhs cx.piELeft st.cts pia0 with
    | none => .fail
    | some (cts1, err1) =>
      if st.active.isEmpty then .done ⟨st.active, pia0, st.piGuess, cts1, trace⟩
      else
        match updateJacobianForSliding cx.prm cx.A st.active m2a cx.piELeft cts1 pia0 Jac0 with
        | none => .fail
        | some Jac1 =>
          match newtonGo cx.prm cx.lsq cx.A st.active m2a cx.verrExpand rhs cx.piELeft
              cx.lsFuel (cx.prm.maxIters - 1) ⟨pia0, err1, vecNorm err1, cts1, Jac1⟩ with
          | none => .fail
          | some nst =>
            match projectUncond m2a nst.pia cx.unconditional st.piGuess with
            | none => .fail
            | some pg1 =>
              let pb := projectBounded m2a nst.pia cx.bounded 0 (pg1, 0, 0)
              match projectUniNormals m2a nst.pia nst.cts 0 (pb.1, 0, 0) with
              | none => .fail
              | some (pg3, wN, wNv) =>
                match projectUniFriction m2a nst.pia cx.piELeft nst.cts 0 (pg3, 0, 0) with
                | none => .fail
                | some (pg4, wF, wFv) =>
                  if pb.2.2 ≤ cx.prm.significantReal ∧ wNv ≤ cx.prm.significantReal
                      ∧ wFv ≤ cx.prm.significantReal then
                    .done ⟨st.active, nst.pia, pg4, nst.cts, trace⟩
                  else
                    match pruneWorst m2a nst.cts st.active wN wNv wF wFv with
                    | none => .fail
                    | some (cts', active') => .next ⟨active', pg4, cts', trace⟩

/-- The active-set loop: iterate `asStep` until it breaks out, crashes, or
the fuel is exhausted. -/
def activeSetLoop (cx : ASCtx) : ℕ → ASState → Res ASOut
  | 0, _ => .fuelOut
  | n + 1, st =>
    match asStep cx st with
    | .fail => .crash
    | .done out => .ok out
    | .next st' => activeSetLoop cx n st'

/-! The sliding-interval driver (`PLUSImpulseSolver::solve`). -/

/-- Determine what fraction of this interval can be accepted (source lines
523-575): only contacts that are currently Sliding restrict the interval.
The `SimTK_ASSERT_ALWAYS` on a misclassified Sliding contact is fatal even in
release builds and is modelled as a crash. -/
def fracForSliding (prm : SolverParams) (A : ℕ → ℕ → ℝ) (active : List ℕ)
    (verrExpand pia : List ℝ) : List UniContactRT → ℝ → Option ℝ
  | [], frac => some frac
  | rt :: rest, frac =>
    if rt.m_frictionCond ≠ .Sliding then
      fracForSliding prm A active verrExpand pia rest frac
    else
      match rt.m_Fk with
      | [f0, f1] =>
        -- New velocity db = [Ax Ay]*(pi+piE).
        let db : Vec2R :=
          (multRowTimesActiveCol A f0 active pia + verrExpand.getD f0 0,
           multRowTimesActiveCol A f1 active pia + verrExpand.getD f1 0)
        let bend := sub2 rt.m_slipVel db
        let bendMag := norm2 bend
        if ¬(rt.m_slipMag > prm.maxRollingTangVel) then none
        else if bendMag ≤ prm.maxRollingTangVel then
          -- friction slowed to a halt
          fracForSliding prm A active verrExpand pia rest frac
        else
          let cosTheta := clamp (-1) (dot2 rt.m_slipVel bend / (rt.m_slipMag * bendMag)) 1
          if cosTheta ≥ prm.cosMaxSlidingDirChange then
            fracForSliding prm A active verrExpand pia rest frac
          else
            let fq := calcSlidingStepLengthToOrigin2 prm rt.m_slipVel bend
            if norm2 fq.2 ≤ prm.maxRollingTangVel then
              fracForSliding prm A active verrExpand pia rest (min frac fq.1)
            else
              fracForSliding prm A active verrExpand pia rest
                (min frac (calcSlidingStepLengthToMaxChange2 prm rt.m_slipVel bend))
      | _ => none

/-- The caller-supplied data of one `solve` invocation. The `UniSpeedRT`,
`ConstraintLtdFrictionRT` and `StateLtdFrictionRT` arrays take no part in the
algorithm (their handling is an acknowledged TODO in the source) and are
omitted. -/
structure ProblemInputs where
  m : ℕ
  participating : List ℕ
  A : ℕ → ℕ → ℝ
  D : List ℝ
  expanding : List ℕ
  piExpand : List ℝ
  verr : List ℝ
  unconditional : List UncondRT
  uniContact : List UniContactRT
  bounded : List BoundedRT

/-- The outputs of `solve`: `pi`, the in/out vectors, the mutated contact
records, the returned flag, and the ghost trace of active sets. `piExpand`
is passed by reference in the source but never written, so it is returned
unchanged. -/
structure SolveResult where
  pi : List ℝ
  verr : List ℝ
  piExpand : List ℝ
  uniContact : List UniContactRT
  converged : Bool
  activeTrace : List (List ℕ)

/-- The data carried from one sliding interval to the next. -/
structure IntervalOut where
  frac : ℝ
  verrLeft : List ℝ
  piELeft : List ℝ
  piTotal : List ℝ
  cts : List UniContactRT
  trace : List (List ℕ)

/-- One sliding interval (the body of the `while (frac < 1)` loop): reset the
active set to `participating`, compute the expansion right-hand side
`verrExpand = A*piELeft + D.*piELeft`, classify frictionals, run the
active-set loop, determine the accepted fraction, and fold the scaled impulse
into the totals. -/
def intervalStep (prm : SolverParams) (lsq : (ℕ → ℕ → ℝ) → List ℝ → List ℝ)
    (inp : ProblemInputs) (asFuel lsFuel : ℕ) (verrLeft piELeft piTotal : List ℝ)
    (cts : List UniContactRT) (trace : List (List ℕ)) : Res IntervalOut :=
  let verrExpand := (List.range inp.m).map fun mx =>
    multRowTimesSparseCol inp.A mx inp.expanding piELeft
      + inp.D.getD mx 0 * piELeft.getD mx 0
  let piGuess := List.replicate inp.m (0 : ℝ)
  match classifyFrictionals prm verrLeft cts with
  | none => .crash
  | some cts0 =>
    match activeSetLoop
        ⟨prm, lsq, inp.A, inp.m, verrLeft, verrExpand, piELeft,
         inp.unconditional, inp.bounded, lsFuel⟩
        asFuel ⟨inp.participating, piGuess, cts0, trace⟩ with
    | .crash => .crash
    | .fuelOut => .fuelOut
    | .ok out =>
      match fracForSliding prm inp.A out.active verrExpand out.piActive out.cts 1 with
      | none => .crash
      | some frac =>
        let piELeft' := inp.expanding.foldl
          (fun pe mx => pe.set mx (pe.getD mx 0 - frac * pe.getD mx 0)) piELeft
        let piA := out.piActive.map (fun x => x * frac)
        let piTotal' := addInActiveCol out.active piA piTotal
        let verrLeft' := (List.range inp.m).map fun mx =>
          verrLeft.getD mx 0
            - (multRowTimesActiveCol inp.A mx out.active piA + frac * verrExpand.getD mx 0)
        .ok ⟨frac, verrLeft', piELeft', piTotal', out.cts, out.trace⟩

/-- The sliding-interval loop. The returned flag is the C++ local
`bool converged = false` declared at the top of `solve` (line 215) and
returned at line 617; no statement of `solve` ever assigns it, so the
non-empty-participation path always returns `false`. -/
def intervalLoop (prm : SolverParams) (lsq : (ℕ → ℕ → ℝ) → List ℝ → List ℝ)
    (inp : ProblemInputs) (asFuel lsFuel : ℕ) :
    ℕ → List ℝ → List ℝ → List ℝ → List UniContactRT → List (List ℕ) →
    Res SolveResult
  | 0, _, _, _, _, _ => .fuelOut
  | n + 1, verrLeft, piELeft, piTotal, cts, trace =>
    match intervalStep prm lsq inp asFuel lsFuel verrLeft piELeft piTotal cts trace with
    | .crash => .crash
    | .fuelOut => .fuelOut
    | .ok iv =>
      if iv.frac < 1 then
        intervalLoop prm lsq inp asFuel lsFuel n iv.verrLeft iv.piELeft iv.piTotal iv.cts iv.trace
      else
        .ok ⟨iv.piTotal, iv.verrLeft, inp.piExpand, iv.cts, false, iv.trace⟩

/-- `PLUSImpulseSolver::solve`. `pi` is resized to `m` and zeroed on entry;
if `participating` is empty the solver returns `true` immediately with `verr`
and `piExpand` untouched. Otherwise run sliding intervals until one of length
`frac = 1` is accepted and return the accumulated `piTotal`, the remaining
`verrLeft`, and the (never assigned) `converged` flag. -/
def PLUSsolve (prm : SolverParams) (lsq : (ℕ → ℕ → ℝ) → List ℝ → List ℝ)
    (inp : ProblemInputs) (ivFuel asFuel lsFuel : ℕ) : Res SolveResult :=
  if inp.participating.length = 0 then
    .ok ⟨List.replicate inp.m 0, inp.verr, inp.piExpand, inp.uniContact, true, []⟩
  else
    intervalLoop prm lsq inp asFuel lsFuel ivFuel inp.verr inp.piExpand
      (List.replicate inp.m 0) inp.uniContact []

/-! Concrete solver configuration and least-squares backend used by the
concrete evaluations below. The backend solves the diagonal systems that
arise in those instances exactly, as any least-squares backend would. -/

/-- A concrete solver configuration: `convergenceTol = 1/100`,
`maxIters = 20`, `minSmoothness = 1/1000`, `maxRollingTangVel = 1/10`,
`cosMaxSlidingDirChange = 99/100`, `SignificantReal = 1/100`,
`TinyReal = 1/10^10`. -/
def prmT : SolverParams :=
  ⟨1 / 100, 20, 1 / 1000, 1 / 10, 99 / 100, 1 / 100, 1 / 10 ^ 10⟩

/-- A caller-supplied least-squares backend (spec section 6) that is exact on
diagonal Jacobians. -/
def lsqDiag : (ℕ → ℕ → ℝ) → List ℝ → List ℝ :=
  fun J e => (List.range e.length).map fun i => e.getD i 0 / J i i

/-! Small facts about `clamp` and the root selection. -/

theorem le_clamp (low v high : ℝ) (h : low ≤ high) : low ≤ clamp low v high := by
  unfold clamp
  split_ifs <;> linarith

theorem clamp_le (low v high : ℝ) (h : low ≤ high) : clamp low v high ≤ high := by
  unfold clamp
  split_ifs <;> linarith

theorem selectMaxChangeSol_spec (p : ℝ × ℝ) (h : 0 ≤ p.1 ∨ 0 ≤ p.2) :
    0 ≤ selectMaxChangeSol p
    ∧ (selectMaxChangeSol p = p.1 ∨ selectMaxChangeSol p = p.2)
    ∧ (0 ≤ p.1 → selectMaxChangeSol p ≤ p.1)
    ∧ (0 ≤ p.2 → selectMaxChangeSol p ≤ p.2) := by
  unfold selectMaxChangeSol
  split_ifs with h1 h2
  · have hp2 : 0 ≤ p.2 := by
      rcases h with h | h
      · linarith
      · exact h
    exact ⟨hp2, Or.inr rfl, fun hp1 => by linarith, fun _ => le_refl _⟩
  · have hp1 : 0 ≤ p.1 := by
      rcases h with h | h
      · exact h
      · linarith
    exact ⟨hp1, Or.inl rfl, fun _ => le_refl _, fun hp2 => by linarith⟩
  · push_neg at h1 h2
    refine ⟨le_min h1 h2, ?_, fun _ => min_le_left _ _, fun _ => min_le_right _ _⟩
    rcases le_total p.1 p.2 with hle | hle
    · exact Or.inl (min_eq_left hle)
    · exact Or.inr (min_eq_right hle)

/-- C3: if `participating` is empty, `solve` sets `pi` to the zero vector of
length `m`, returns `true`, and leaves `verr` and `piExpand` exactly
unchanged. -/
theorem C3_empty_participation (prm : SolverParams)
    (lsq : (ℕ → ℕ → ℝ) → List ℝ → List ℝ) (inp : ProblemInputs)
    (ivFuel asFuel lsFuel : ℕ) (h : inp.participating = []) :
    PLUSsolve prm lsq inp ivFuel asFuel lsFuel =
      .ok ⟨List.replicate inp.m 0, inp.verr, inp.piExpand, inp.uniContact, true, []⟩ := by
  unfold PLUSsolve
  simp [h]

/-- A concrete input with `participating = []` (m = 2, nonzero `verr` and
`piExpand`). -/
def inpEmpty : ProblemInputs :=
  ⟨2, [], fun _ _ => 0, [0, 0], [], [5, 6], [3, 4], [], [], []⟩

/-- C3 witness: the empty-participation theorem evaluated on `inpEmpty`. -/
theorem C3_witness :
    PLUSsolve prmT lsqDiag inpEmpty 1 1 1 =
      .ok ⟨[0, 0], [3, 4], [5, 6], [], true, []⟩ := by
  have h := C3_empty_participation prmT lsqDiag inpEmpty 1 1 1 rfl
  simpa [inpEmpty] using h

/-- C6: `calcSlidingStepLengthToOrigin` (both overloads) returns a step
length in `[0,1]` whose output point is `Q = A + s*(B-A)`; it returns 1 with
`Q = B` when the initial slip is below the rolling threshold or the segment
is insignificant, and otherwise returns the clamped projection of the origin
onto the segment. -/
theorem C6_stepToOrigin_spec (prm : SolverParams) :
    (∀ A B : Vec2R,
      0 ≤ (calcSlidingStepLengthToOrigin2 prm A B).1
      ∧ (calcSlidingStepLengthToOrigin2 prm A B).1 ≤ 1
      ∧ (calcSlidingStepLengthToOrigin2 prm A B).2 =
          add2 A (smul2 (calcSlidingStepLengthToOrigin2 prm A B).1 (sub2 B A))
      ∧ ((normSqr2 A < prm.maxRollingTangVel * prm.maxRollingTangVel
           ∨ normSqr2 (sub2 B A) < prm.significantReal) →
          (calcSlidingStepLengthToOrigin2 prm A B).1 = 1
          ∧ (calcSlidingStepLengthToOrigin2 prm A B).2 = B)
      ∧ (¬ normSqr2 A < prm.maxRollingTangVel * prm.maxRollingTangVel →
         ¬ normSqr2 (sub2 B A) < prm.significantReal →
          (calcSlidingStepLengthToOrigin2 prm A B).1 =
            clamp 0 (dot2 (sub2 (0, 0) A) (sub2 B A) / normSqr2 (sub2 B A)) 1))
    ∧
    (∀ A B : Vec3R,
      0 ≤ (calcSlidingStepLengthToOrigin3 prm A B).1
      ∧ (calcSlidingStepLengthToOrigin3 prm A B).1 ≤ 1
      ∧ (calcSlidingStepLengthToOrigin3 prm A B).2 =
          add3 A (smul3 (calcSlidingStepLengthToOrigin3 prm A B).1 (sub3 B A))
      ∧ ((normSqr3 A < prm.maxRollingTangVel * prm.maxRollingTangVel
           ∨ normSqr3 (sub3 B A) < prm.significantReal) →
          (calcSlidingStepLengthToOrigin3 prm A B).1 = 1
          ∧ (calcSlidingStepLengthToOrigin3 prm A B).2 = B)
      ∧ (¬ normSqr3 A < prm.maxRollingTangVel * prm.maxRollingTangVel →
         ¬ normSqr3 (sub3 B A) < prm.significantReal →
          (calcSlidingStepLengthToOrigin3 prm A B).1 =
            clamp 0 (dot3 (sub3 (0, (0, 0)) A) (sub3 B A) / normSqr3 (sub3 B A)) 1)) := by
  constructor
  · intro A B
    unfold calcSlidingStepLengthToOrigin2
    dsimp only
    split_ifs with h1 h2
    · refine ⟨zero_le_one, le_refl 1, ?_, fun _ => ⟨rfl, rfl⟩, fun hc _ => absurd h1 hc⟩
      simp [add2, smul2, sub2]
    · refine ⟨zero_le_one, le_refl 1, ?_, fun _ => ⟨rfl, rfl⟩, fun _ hc => absurd h2 hc⟩
      simp [add2, smul2, sub2]
    · refine ⟨le_clamp _ _ _ zero_le_one, clamp_le _ _ _ zero_le_one, rfl, ?_, fun _ _ => rfl⟩
      rintro (hc | hc)
      · exact absurd hc h1
      · exact absurd hc h2
  · intro A B
    unfold calcSlidingStepLengthToOrigin3
    dsimp only
    split_ifs with h1 h2
    · refine ⟨zero_le_one, le_refl 1, ?_, fun _ => ⟨rfl, rfl⟩, fun hc _ => absurd h1 hc⟩
      simp [add3, smul3, sub3]
    · refine ⟨zero_le_one, le_refl 1, ?_, fun _ => ⟨rfl, rfl⟩, fun _ hc => absurd h2 hc⟩
      simp [add3, smul3, sub3]
    · refine ⟨le_clamp _ _ _ zero_le_one, clamp_le _ _ _ zero_le_one, rfl, ?_, fun _ _ => rfl⟩
      rintro (hc | hc)
      · exact absurd hc h1
      · exact absurd hc h2

/-- C6 witness: the step-to-origin specification evaluated at a concrete
Vec2 pair (slip from (3,4) to (0,0) gives step length 1) and Vec3 pair. -/
theorem C6_witness :
    (calcSlidingStepLengthToOrigin2 prmT (3, 4) (0, 0)).1 =
      clamp 0 (dot2 (sub2 (0, 0) (3, 4)) (sub2 (0, 0) (3, 4)) / normSqr2 (sub2 (0, 0) (3, 4))) 1
    ∧ 0 ≤ (calcSlidingStepLengthToOrigin3 prmT (3, (4, 0)) (0, (0, 0))).1 := by
  constructor
  · exact ((C6_stepToOrigin_spec prmT).1 (3, 4) (0, 0)).2.2.2.2
      (by norm_num [normSqr2, prmT]) (by norm_num [normSqr2, sub2, prmT])
  · exact ((C6_stepToOrigin_spec prmT).2 (3, (4, 0)) (0, (0, 0))).1

/-- C5 counterexample: with `cosMaxSlidingDirChange = 99/100`, slip start
`A = (1,0)` and end `B = (2,0)` (no direction change at all), both
closed-form roots are `-1`, so `calcSlidingStepLengthToMaxChange` returns the
negative value `-1`: neither is a non-negative root guaranteed to exist, nor
is the return value always non-negative. -/
theorem C5_counterexample :
    calcMaxChangeSols2 prmT (1, 0) (2, 0) = (-1, -1)
    ∧ calcSlidingStepLengthToMaxChange2 prmT (1, 0) (2, 0) = -1
    ∧ calcSlidingStepLengthToMaxChange2 prmT (1, 0) (2, 0) < 0 := by
  have hsols : calcMaxChangeSols2 prmT (1, 0) (2, 0) = (-1, -1) := by
    unfold calcMaxChangeSols2
    dsimp only
    norm_num [sub2, prmT, Real.sqrt_zero]
  refine ⟨hsols, ?_, ?_⟩
  · unfold calcSlidingStepLengthToMaxChange2
    rw [hsols]
    norm_num [selectMaxChangeSol]
  · unfold calcSlidingStepLengthToMaxChange2
    rw [hsols]
    norm_num [selectMaxChangeSol]

/-- C5 amended: `calcSlidingStepLengthToMaxChange` (both overloads) returns
the smaller non-negative of its two closed-form roots whenever at least one
of them is non-negative; when both roots are negative (which does happen, see
the counterexample) the returned value is negative. -/
theorem C5_amended_smallest_nonneg_root :
    (∀ (prm : SolverParams) (A B : Vec2R),
      (0 ≤ (calcMaxChangeSols2 prm A B).1 ∨ 0 ≤ (calcMaxChangeSols2 prm A B).2) →
        0 ≤ calcSlidingStepLengthToMaxChange2 prm A B
        ∧ (calcSlidingStepLengthToMaxChange2 prm A B = (calcMaxChangeSols2 prm A B).1
           ∨ calcSlidingStepLengthToMaxChange2 prm A B = (calcMaxChangeSols2 prm A B).2)
        ∧ (0 ≤ (calcMaxChangeSols2 prm A B).1 →
            calcSlidingStepLengthToMaxChange2 prm A B ≤ (calcMaxChangeSols2 prm A B).1)
        ∧ (0 ≤ (calcMaxChangeSols2 prm A B).2 →
            calcSlidingStepLengthToMaxChange2 prm A B ≤ (calcMaxChangeSols2 prm A B).2))
    ∧
    (∀ (prm : SolverParams) (A B : Vec3R),
      (0 ≤ (calcMaxChangeSols3 prm A B).1 ∨ 0 ≤ (calcMaxChangeSols3 prm A B).2) →
        0 ≤ calcSlidingStepLengthToMaxChange3 prm A B
        ∧ (calcSlidingStepLengthToMaxChange3 prm A B = (calcMaxChangeSols3 prm A B).1
           ∨ calcSlidingStepLengthToMaxChange3 prm A B = (calcMaxChangeSols3 prm A B).2)
        ∧ (0 ≤ (calcMaxChangeSols3 prm A B).1 →
            calcSlidingStepLengthToMaxChange3 prm A B ≤ (calcMaxChangeSols3 prm A B).1)
        ∧ (0 ≤ (calcMaxChangeSols3 prm A B).2 →
            calcSlidingStepLengthToMaxChange3 prm A B ≤ (calcMaxChangeSols3 prm A B).2)) :=
  ⟨fun prm A B h => selectMaxChangeSol_spec (calcMaxChangeSols2 prm A B) h,
   fun prm A B h => selectMaxChangeSol_spec (calcMaxChangeSols3 prm A B) h⟩

/-- C5 witness: for slip reversing from `(1,0)` to the origin both roots are
`1`, and the amended theorem yields a non-negative return value for both
overloads. -/
theorem C5_witness :
    0 ≤ calcSlidingStepLengthToMaxChange2 prmT (1, 0) (0, 0)
    ∧ 0 ≤ calcSlidingStepLengthToMaxChange3 prmT (1, (0, 0)) (0, (0, 0)) := by
  have h2 : calcMaxChangeSols2 prmT (1, 0) (0, 0) = (1, 1) := by
    unfold calcMaxChangeSols2
    dsimp only
    norm_num [sub2, prmT, Real.sqrt_zero]
  have h3 : calcMaxChangeSols3 prmT (1, (0, 0)) (0, (0, 0)) = (1, 1) := by
    unfold calcMaxChangeSols3
    dsimp only
    norm_num [sub3, prmT, Real.sqrt_zero]
  constructor
  · exact (C5_amended_smallest_nonneg_root.1 prmT (1, 0) (0, 0)
      (Or.inl (by rw [h2]; norm_num))).1
  · exact (C5_amended_smallest_nonneg_root.2 prmT (1, (0, 0)) (0, (0, 0))
      (Or.inl (by rw [h3]; norm_num))).1

/-- C2 amended (projection step): the in-bounds value that the uni-contact
normal projection stores in `piGuess` is never tensile: for every sign
convention `sgn` and Newton result `piAx`, `sgn * uniNormalPiAdj sgn piAx ≤ 0`.
The value returned in `pi`, by contrast, accumulates the unprojected
`piActive`, which the `SignificantReal` acceptance test allows to be tensile
(see the counterexample). -/
theorem C2_amended_piGuess_compressive (sgn piAx : ℝ) :
    sgn * uniNormalPiAdj sgn piAx ≤ 0 := by
  unfold uniNormalPiAdj
  split_ifs with h
  · linarith
  · simp

/-- Evaluation helper: a square root whose argument is a perfect square. -/
theorem sqrt_val {x y : ℝ} (hy : 0 ≤ y) (h : y * y = x) : Real.sqrt x = y := by
  rw [← h]
  exact Real.sqrt_mul_self hy

/-- Pointwise characterization of a successful `classifyFrictionals` run. -/
theorem classifyFrictionals_get (prm : SolverParams) (verrLeft : List ℝ) :
    ∀ (cts cts' : List UniContactRT),
      classifyFrictionals prm verrLeft cts = some cts' →
      ∀ k rt', cts'.get? k = some rt' →
        ∃ rt, cts.get? k = some rt ∧ classifyOne prm verrLeft rt = some rt' := by
  intro cts
  induction cts with
  | nil =>
    intro cts' h k rt' hk
    simp only [classifyFrictionals, Option.some.injEq] at h
    subst h
    simp at hk
  | cons x xs ih =>
    intro cts' h k rt' hk
    unfold classifyFrictionals at h
    cases hfx : classifyOne prm verrLeft x with
    | none => rw [hfx] at h; exact absurd h (by simp)
    | some y =>
      rw [hfx] at h
      cases hxs : classifyFrictionals prm verrLeft xs with
      | none => rw [hxs] at h; exact absurd h (by simp)
      | some ys =>
        rw [hxs] at h
        simp only [Option.some.injEq] at h
        subst h
        cases k with
        | zero =>
          simp only [List.get?_cons_zero, Option.some.injEq] at hk
          subst hk
          exact ⟨x, rfl, hfx⟩
        | succ k' =>
          simp only [List.get?_cons_succ] at hk ⊢
          exact ih ys hxs k' rt' hk

/-- What `classifyOne` does to a single contact. -/
theorem classifyOne_spec (prm : SolverParams) (verrLeft : List ℝ)
    (rt rt' : UniContactRT) (h : classifyOne prm verrLeft rt = some rt') :
    rt'.m_frictionCond ≠ .Impending
    ∧ (rt.m_type ≠ .Observing → rt.hasFriction = true →
        ∃ f0 f1, rt.m_Fk = [f0, f1]
          ∧ rt'.m_slipVel = (verrLeft.getD f0 0, verrLeft.getD f1 0)
          ∧ rt'.m_slipMag = norm2 rt'.m_slipVel
          ∧ (rt'.m_frictionCond = .Sliding ↔ rt'.m_slipMag > prm.maxRollingTangVel)
          ∧ (rt'.m_frictionCond = .Sliding ∨ rt'.m_frictionCond = .Rolling)) := by
  obtain ⟨ty, nk, fk, mu, sg, cc, fc, sv, sm⟩ := rt
  unfold classifyOne at h
  cases ty with
  | Observing =>
    dsimp only [UniContactRT.hasFriction] at h
    rw [if_pos (Or.inl rfl)] at h
    simp only [Option.some.injEq] at h
    subst h
    exact ⟨by simp, fun hobs _ => absurd rfl hobs⟩
  | Participating =>
    dsimp only [UniContactRT.hasFriction] at h ⊢
    cases fk with
    | nil =>
      rw [if_pos (Or.inr (show (!List.isEmpty ([] : List ℕ)) = false from rfl))] at h
      simp only [Option.some.injEq] at h
      subst h
      exact ⟨by simp, fun _ habs => by simp at habs⟩
    | cons f0 rest =>
      rw [if_neg (by simp)] at h
      cases rest with
      | nil => simp at h
      | cons f1 rest2 =>
        cases rest2 with
        | cons f2 rest3 => simp at h
        | nil =>
          simp only [Option.some.injEq] at h
          subst h
          refine ⟨?_, ?_⟩
          · dsimp only
            split_ifs <;> simp
          · intro _ _
            refine ⟨f0, f1, rfl, rfl, ?_, ?_, ?_⟩
            · dsimp only [norm2, normSqr2]
              rw [zero_add]
            · dsimp only
              split_ifs with hc
              · simp only [zero_add] at hc
                simpa [List.getD] using hc
              · simp only [zero_add] at hc
                simpa [List.getD] using hc
            · dsimp only
              split_ifs
              · exact Or.inl rfl
              · exact Or.inr rfl
  | Known =>
    dsimp only [UniContactRT.hasFriction] at h ⊢
    cases fk with
    | nil =>
      rw [if_pos (Or.inr (show (!List.isEmpty ([] : List ℕ)) = false from rfl))] at h
      simp only [Option.some.injEq] at h
      subst h
      exact ⟨by simp, fun _ habs => by simp at habs⟩
    | cons f0 rest =>
      rw [if_neg (by simp)] at h
      cases rest with
      | nil => simp at h
      | cons f1 rest2 =>
        cases rest2 with
        | cons f2 rest3 => simp at h
        | nil =>
          simp only [Option.some.injEq] at h
          subst h
          refine ⟨?_, ?_⟩
          · dsimp only
            split_ifs <;> simp
          · intro _ _
            refine ⟨f0, f1, rfl, rfl, ?_, ?_, ?_⟩
            · dsimp only [norm2, normSqr2]
              rw [zero_add]
            · dsimp only
              split_ifs with hc
              · simp only [zero_add] at hc
                simpa [List.getD] using hc
              · simp only [zero_add] at hc
                simpa [List.getD] using hc
            · dsimp only
              split_ifs
              · exact Or.inl rfl
              · exact Or.inr rfl

/-- C8: after `classifyFrictionals` runs at the start of a sliding interval,
every non-Observing frictional uni-contact has `slipVel = verrLeft[Fk]`,
`slipMag` equal to the norm of `slipVel`, and is classified Sliding exactly
when `slipMag > maxRollingTangVel` and Rolling otherwise; no contact is ever
left classified Impending by the classifier. -/
theorem C8_classifier_spec (prm : SolverParams) (verrLeft : List ℝ)
    (cts cts' : List UniContactRT)
    (h : classifyFrictionals prm verrLeft cts = some cts') :
    ∀ k rt', cts'.get? k = some rt' →
      rt'.m_frictionCond ≠ .Impending
      ∧ ∀ rt, cts.get? k = some rt → rt.m_type ≠ .Observing →
          rt.hasFriction = true →
          ∃ f0 f1, rt.m_Fk = [f0, f1]
            ∧ rt'.m_slipVel = (verrLeft.getD f0 0, verrLeft.getD f1 0)
            ∧ rt'.m_slipMag = norm2 rt'.m_slipVel
            ∧ (rt'.m_frictionCond = .Sliding ↔ rt'.m_slipMag > prm.maxRollingTangVel)
            ∧ (rt'.m_frictionCond = .Sliding ∨ rt'.m_frictionCond = .Rolling) := by
  intro k rt' hk
  obtain ⟨rt0, hrt0, hone⟩ := classifyFrictionals_get prm verrLeft cts cts' h k rt' hk
  refine ⟨(classifyOne_spec prm verrLeft rt0 rt' hone).1, ?_⟩
  intro rt hrt hobs hfric
  rw [hrt0] at hrt
  injection hrt with hrt
  subst hrt
  exact (classifyOne_spec prm verrLeft rt0 rt' hone).2 hobs hfric

/-- A single Participating frictional contact (normal index 2, friction
indices 0 and 1). -/
def ctsC8 : List UniContactRT :=
  [⟨.Participating, 2, [0, 1], 1 / 2, 1, .UniOff, .FricOff, (0, 0), 0⟩]

/-- The classifier output on `ctsC8` with `verrLeft = [3, 4, -1]`: slip
velocity (3,4) of magnitude 5, hence Sliding. -/
def ctsC8' : List UniContactRT :=
  [⟨.Participating, 2, [0, 1], 1 / 2, 1, .UniActive, .Sliding, (3, 4), 5⟩]

theorem classify_ctsC8 : classifyFrictionals prmT [3, 4, -1] ctsC8 = some ctsC8' := by
  have h5 : Real.sqrt (0 + (3 : ℝ) * 3 + 4 * 4) = 5 := sqrt_val (by norm_num) (by norm_num)
  have h25 : Real.sqrt (25 : ℝ) = 5 := sqrt_val (by norm_num) (by norm_num)
  norm_num [classifyFrictionals, classifyOne, ctsC8, ctsC8',
    UniContactRT.hasFriction, prmT, h5, h25]
  rw [if_neg (show ¬ContactType.Participating = ContactType.Observing by decide)]

/-- C8 witness: the classifier specification evaluated on `ctsC8`. -/
theorem C8_witness :
    (⟨.Participating, 2, [0, 1], 1 / 2, 1, .UniActive, .Sliding, (3, 4), 5⟩
        : UniContactRT).m_frictionCond ≠ .Impending
    ∧ ((⟨.Participating, 2, [0, 1], 1 / 2, 1, .UniActive, .Sliding, (3, 4), 5⟩
        : UniContactRT).m_frictionCond = .Sliding
      ∨ (⟨.Participating, 2, [0, 1], 1 / 2, 1, .UniActive, .Sliding, (3, 4), 5⟩
        : UniContactRT).m_frictionCond = .Rolling) := by
  have h := C8_classifier_spec prmT [3, 4, -1] ctsC8 ctsC8' classify_ctsC8 0 _ rfl
  refine ⟨h.1, ?_⟩
  obtain ⟨f0, f1, -, -, -, -, hor⟩ := h.2 _ rfl (by decide) (by decide)
  exact hor

/-! Distinct-constructor equalities reduced to `False`, so that `simp`
can resolve the solver's runtime-condition tests on concrete records. -/

@[simp] theorem condNe1 : (UniCond.UniActive = UniCond.UniKnown) = False := eq_false (by decide)
@[simp] theorem condNe2 : (UniCond.UniActive = UniCond.UniOff) = False := eq_false (by decide)
@[simp] theorem condNe3 : (UniCond.UniKnown = UniCond.UniActive) = False := eq_false (by decide)
@[simp] theorem condNe4 : (UniCond.UniKnown = UniCond.UniOff) = False := eq_false (by decide)
@[simp] theorem condNe5 : (UniCond.UniOff = UniCond.UniActive) = False := eq_false (by decide)
@[simp] theorem condNe6 : (UniCond.UniOff = UniCond.UniKnown) = False := eq_false (by decide)
@[simp] theorem condNe7 : (FricCond.FricOff = FricCond.Rolling) = False := eq_false (by decide)
@[simp] theorem condNe8 : (FricCond.FricOff = FricCond.Sliding) = False := eq_false (by decide)
@[simp] theorem condNe9 : (FricCond.FricOff = FricCond.Impending) = False := eq_false (by decide)
@[simp] theorem condNe10 : (FricCond.Rolling = FricCond.FricOff) = False := eq_false (by decide)
@[simp] theorem condNe11 : (FricCond.Rolling = FricCond.Sliding) = False := eq_false (by decide)
@[simp] theorem condNe12 : (FricCond.Rolling = FricCond.Impending) = False := eq_false (by decide)
@[simp] theorem condNe13 : (FricCond.Sliding = FricCond.FricOff) = False := eq_false (by decide)
@[simp] theorem condNe14 : (FricCond.Sliding = FricCond.Rolling) = False := eq_false (by decide)
@[simp] theorem condNe15 : (FricCond.Sliding = FricCond.Impending) = False := eq_false (by decide)
@[simp] theorem condNe16 : (FricCond.Impending = FricCond.FricOff) = False := eq_false (by decide)
@[simp] theorem condNe17 : (FricCond.Impending = FricCond.Rolling) = False := eq_false (by decide)
@[simp] theorem condNe18 : (FricCond.Impending = FricCond.Sliding) = False := eq_false (by decide)
@[simp] theorem condNe19 : (ContactType.Participating = ContactType.Known) = False := eq_false (by decide)
@[simp] theorem condNe20 : (ContactType.Participating = ContactType.Observing) = False := eq_false (by decide)
@[simp] theorem condNe21 : (ContactType.Known = ContactType.Participating) = False := eq_false (by decide)
@[simp] theorem condNe22 : (ContactType.Known = ContactType.Observing) = False := eq_false (by decide)
@[simp] theorem condNe23 : (ContactType.Observing = ContactType.Participating) = False := eq_false (by decide)
@[simp] theorem condNe24 : (ContactType.Observing = ContactType.Known) = False := eq_false (by decide)

/-! Concrete solve traces. -/

/-- Spec scenario S1 (single bounded equality): `m = 1`, `A = [[2]]`,
`D = [0]`, `verr = [4]`, `piExpand = [0]`, one `UncondRT` on index 0. -/
def inpS1 : ProblemInputs :=
  ⟨1, [0], fun _ _ => 2, [0], [], [0], [4], [⟨[0]⟩], [], []⟩

/-- C1: on scenario S1 the solver computes the expected impulse `pi = [2]`
and final `verr = [0]` and the interval loop exits with `frac = 1`, yet
`solve` returns `false`: the local `bool converged = false` (source line 215)
is never assigned before being returned (line 617), so the flag the spec
derives from reaching `frac = 1` is never produced. -/
theorem C1_S1_reaches_frac1_but_returns_false :
    PLUSsolve prmT lsqDiag inpS1 1 1 2 = .ok ⟨[2], [0], [0], [], false, [[0]]⟩ := by
  have hr1 : List.range 1 = [0] := rfl
  have hm2a : fillMult2Active [0] 1 = [some 0] := by decide
  have h16 : Real.sqrt 16 = 4 := sqrt_val (by norm_num) (by norm_num)
  norm_num [PLUSsolve, inpS1, intervalLoop, intervalStep, classifyFrictionals,
    activeSetLoop, asStep, hm2a, initializeNewton, seedImpacters,
    updateDirectionsAndCalcCurrentError, udceGo, udceContact, multRowTimesActiveCol,
    multRowTimesSparseCol, addInActiveCol, fracForSliding,
    updateJacobianForSliding, ujsGo, newtonGo, lineSearch, vecNorm,
    Real.sqrt_zero, lsqDiag, prmT, hr1, h16, projectUncond, projMults,
    projectBounded, projectUniNormals, projectUniFriction]

/-- A single Bounded constraint (bounds `[-1, 1]`) on index 0 with no
unilateral contacts: `m = 1`, `A = [[1]]`, `verr = [4]`. -/
def inpC9 : ProblemInputs :=
  ⟨1, [0], fun _ _ => 1, [0], [], [0], [4], [], [], [⟨0, -1, 1⟩]⟩

set_option maxHeartbeats 2000000 in
/-- C9: when the only violation exceeding `SignificantReal` comes from a
Bounded constraint, the pruning step falls into the release-friction branch
with `worstFric` still holding its default 0 and evaluates
`uniContact[worstFric]` on an empty `uniContact` array — an out-of-bounds
access (a bounds-assertion failure), modelled as a crash. -/
theorem C9_bounded_prune_out_of_bounds :
    PLUSsolve prmT lsqDiag inpC9 1 1 2 = .crash := by
  have hr1 : List.range 1 = [0] := rfl
  have hm2a : fillMult2Active [0] 1 = [some 0] := by decide
  have h16 : Real.sqrt 16 = 4 := sqrt_val (by norm_num) (by norm_num)
  have hclamp : clamp (-1) 4 1 = 1 := by norm_num [clamp]
  norm_num [PLUSsolve, inpC9, intervalLoop, intervalStep, classifyFrictionals,
    activeSetLoop, asStep, hm2a, initializeNewton, seedImpacters,
    updateDirectionsAndCalcCurrentError, udceGo, udceContact, multRowTimesActiveCol,
    multRowTimesSparseCol, addInActiveCol, fracForSliding,
    updateJacobianForSliding, ujsGo, newtonGo, lineSearch, vecNorm,
    Real.sqrt_zero, lsqDiag, prmT, hr1, h16, hclamp, projectUncond, projMults,
    projectBounded, projectUniNormals, projectUniFriction,
    pruneWorst, releaseFriction]

/-- A single frictionless Participating uni-contact (sign +1) with
`m = 1`, `A = [[1]]` and a tiny separating velocity error
`verr = [SignificantReal]`. -/
def inpC2 : ProblemInputs :=
  ⟨1, [0], fun _ _ => 1, [0], [], [0], [1 / 100], [],
   [⟨.Participating, 0, [], 0, 1, .UniOff, .FricOff, (0, 0), 0⟩], []⟩

set_option maxHeartbeats 2000000 in
/-- C2 counterexample: on `inpC2` the seeded Newton guess
`piActive = 0.01*sign(rhs) = 1/100` already has zero residual, the projection
records a uni-normal violation of exactly `SignificantReal`, which the
acceptance test `<= SignificantReal` lets pass, and `piTotal` accumulates the
unprojected `piActive`. The returned impulse at the `UniActive` normal is
`pi[0] = 1/100`, so `sign*pi[Nk] = 1/100 > 0`: a tensile impulse, violating
`sign*pi[Nk] <= 0`. -/
theorem C2_counterexample :
    PLUSsolve prmT lsqDiag inpC2 1 1 2 =
      .ok ⟨[1 / 100], [0], [0],
        [⟨.Participating, 0, [], 0, 1, .UniActive, .FricOff, (0, 0), 0⟩],
        false, [[0]]⟩
    ∧ ¬((1 : ℝ) * (1 / 100) ≤ 0) := by
  constructor
  · have hr1 : List.range 1 = [0] := rfl
    have hm2a : fillMult2Active [0] 1 = [some 0] := by decide
    have hcc : (UniCond.UniActive = UniCond.UniOff ∨ UniCond.UniActive = UniCond.UniKnown) = False :=
      eq_false (by decide)
    have hcc2 : (UniCond.UniActive = UniCond.UniOff) = False := eq_false (by decide)
    have habs : |(1 : ℝ) / 100| = 1 / 100 := abs_of_pos (by norm_num)
    norm_num [PLUSsolve, inpC2, intervalLoop, intervalStep, classifyFrictionals,
      classifyOne, UniContactRT.hasFriction, activeSetLoop, asStep, hm2a,
      initializeNewton, seedImpacters, signOf,
      updateDirectionsAndCalcCurrentError, udceGo, udceContact, multRowTimesActiveCol,
      multRowTimesSparseCol, addInActiveCol, fracForSliding,
      updateJacobianForSliding, ujsGo, ujsContact, newtonGo, lineSearch, vecNorm,
      Real.sqrt_zero, lsqDiag, prmT, hr1, hcc, hcc2, habs, projectUncond, projMults,
      projectBounded, projectUniNormals, projectUniFriction, uniNormalPiAdj]
  · norm_num

/-- A frictionless Participating uni-contact on multiplier 0, plus an
unconditional constraint on multipliers 1 and 2, with `A = I`, `m = 3` and a
separating velocity error on the contact normal. -/
def inpC4 : ProblemInputs :=
  ⟨3, [0, 1, 2], fun i j => if i = j then 1 else 0, [0, 0, 0], [], [0, 0, 0],
   [1, 0, 0], [⟨[1, 2]⟩], [⟨.Participating, 0, [], 0, 1, .UniOff, .FricOff, (0, 0), 0⟩], []⟩

set_option maxHeartbeats 2000000 in
/-- The full solve on `inpC4`: the first active-set iteration releases the
separating contact normal, and the swap-with-last erase turns
`active = [0,1,2]` into `[2,1]`; the second iteration accepts. -/
theorem solveC4_run :
    PLUSsolve prmT lsqDiag inpC4 1 2 2 =
      .ok ⟨[0, 0, 0], [1, 0, 0], [0, 0, 0],
        [⟨.Participating, 0, [], 0, 1, .UniOff, .FricOff, (0, 0), 0⟩],
        false, [[0, 1, 2], [2, 1]]⟩ := by
  have hr3 : List.range 3 = [0, 1, 2] := rfl
  have hr2 : List.range 2 = [0, 1] := rfl
  have hr1 : List.range 1 = [0] := rfl
  have hrep : List.replicate 3 (0 : ℝ) = [0, 0, 0] := rfl
  have hm2a1 : fillMult2Active [0, 1, 2] 3 = [some 0, some 1, some 2] := by decide
  have hm2a2 : fillMult2Active [2, 1] 3 = [none, some 1, some 0] := by decide
  have heras : eraseFastAt [0, 1, 2] 0 = some [2, 1] := by decide
  have h9801 : Real.sqrt (9801 / 10000) = 99 / 100 := sqrt_val (by norm_num) (by norm_num)
  norm_num [PLUSsolve, inpC4, intervalLoop, intervalStep, classifyFrictionals,
    classifyOne, UniContactRT.hasFriction, activeSetLoop, asStep, hm2a1, hm2a2,
    initializeNewton, seedImpacters, signOf,
    updateDirectionsAndCalcCurrentError, udceGo, udceContact, multRowTimesActiveCol,
    multRowTimesSparseCol, addInActiveCol, fracForSliding,
    updateJacobianForSliding, ujsGo, ujsContact, newtonGo, lineSearch, vecNorm,
    Real.sqrt_zero, lsqDiag, prmT, hr3, hr2, hr1, hrep, h9801, heras, projectUncond, projMults,
    projectBounded, projectUniNormals, projectUniFriction, uniNormalPiAdj,
    pruneWorst, releaseFriction]

/-- C4 counterexample: during the solve on `inpC4` the active set takes the
value `[2,1]` (recorded in the ghost trace), which is not a subsequence of
`participating = [0,1,2]`: the swap-with-last erase does not preserve the
relative order. -/
theorem C4_counterexample :
    PLUSsolve prmT lsqDiag inpC4 1 2 2 =
      .ok ⟨[0, 0, 0], [1, 0, 0], [0, 0, 0],
        [⟨.Participating, 0, [], 0, 1, .UniOff, .FricOff, (0, 0), 0⟩],
        false, [[0, 1, 2], [2, 1]]⟩
    ∧ [2, 1] ∈ [[0, 1, 2], [2, 1]]
    ∧ ¬ List.Sublist [2, 1] inpC4.participating := by
  refine ⟨solveC4_run, by decide, ?_⟩
  show ¬ List.Sublist [2, 1] [0, 1, 2]
  decide

/-! Facts about the swap-with-last erase. -/

/-- A successful `eraseFastAt` unpacked. -/
theorem eraseFastAt_eq_some {l : List ℕ} {i : ℕ} {l' : List ℕ}
    (h : eraseFastAt l i = some l') :
    ∃ lastv, l.getLast? = some lastv ∧ i < l.length ∧ l' = (l.set i lastv).dropLast := by
  unfold eraseFastAt at h
  cases hl : l.getLast? with
  | none => rw [hl] at h; exact absurd h (by simp)
  | some lastv =>
    rw [hl] at h
    dsimp only at h
    by_cases hi : i < l.length
    · rw [if_pos hi] at h
      simp only [Option.some.injEq] at h
      exact ⟨lastv, rfl, hi, h.symm⟩
    · rw [if_neg hi] at h
      exact absurd h (by simp)

/-- The swap-with-last erase produces a permutation of the order-preserving
erase at the same position. -/
theorem eraseFastAt_perm :
    ∀ (l : List ℕ) (i : ℕ) (l' : List ℕ), eraseFastAt l i = some l' →
      l'.Perm (l.eraseIdx i) := by
  intro l
  induction l with
  | nil => intro i l' h; simp [eraseFastAt] at h
  | cons a tl ih =>
    intro i l' h
    obtain ⟨lastv, hlast, hi, hform⟩ := eraseFastAt_eq_some h
    subst hform
    cases tl with
    | nil =>
      have : i = 0 := by simpa using hi
      subst this
      rw [List.getLast?_singleton] at hlast
      simp only [Option.some.injEq] at hlast
      subst hlast
      simp
    | cons b tl2 =>
      rw [List.getLast?_cons_cons] at hlast
      cases i with
      | zero =>
        rw [List.set_cons_zero, List.dropLast_cons₂]
        have h1 : ((b :: tl2).dropLast ++ [lastv]).Perm (lastv :: (b :: tl2).dropLast) :=
          List.perm_append_singleton _ _
        have h2 : (b :: tl2).dropLast ++ [lastv] = b :: tl2 :=
          List.dropLast_append_getLast? lastv hlast
        have h3 := h1.symm
        rw [h2] at h3
        exact h3
      | succ j =>
        have hj : j < (b :: tl2).length := by simpa using hi
        have hrec : eraseFastAt (b :: tl2) j = some (((b :: tl2).set j lastv).dropLast) := by
          unfold eraseFastAt
          rw [hlast]
          dsimp only
          rw [if_pos hj]
        have hperm := ih j _ hrec
        rw [List.set_cons_succ]
        obtain ⟨c, cs, hccs⟩ : ∃ c cs, (b :: tl2).set j lastv = c :: cs := by
          cases j
          · exact ⟨lastv, tl2, rfl⟩
          · exact ⟨b, _, rfl⟩
        rw [hccs, List.dropLast_cons₂]
        show (a :: (c :: cs).dropLast).Perm ((a :: b :: tl2).eraseIdx (j + 1))
        rw [hccs] at hperm
        exact List.Perm.cons a hperm

/-- `eraseFastAt` removes exactly one element. -/
theorem eraseFastAt_length {l : List ℕ} {i : ℕ} {l' : List ℕ}
    (h : eraseFastAt l i = some l') : l'.length + 1 = l.length := by
  obtain ⟨lastv, _, hi, hform⟩ := eraseFastAt_eq_some h
  subst hform
  rw [List.length_dropLast, List.length_set]
  omega

/-- `eraseFastAt` yields a sub-multiset: every element still came from `l`. -/
theorem eraseFastAt_subset {l : List ℕ} {i : ℕ} {l' : List ℕ}
    (h : eraseFastAt l i = some l') : l' ⊆ l :=
  (eraseFastAt_perm l i l' h).subset.trans (List.eraseIdx_sublist l i).subset

/-- `eraseFastAt` preserves distinctness. -/
theorem eraseFastAt_nodup {l : List ℕ} {i : ℕ} {l' : List ℕ}
    (h : eraseFastAt l i = some l') (hnd : l.Nodup) : l'.Nodup :=
  (eraseFastAt_perm l i l' h).nodup_iff.mpr
    (List.Nodup.sublist (List.eraseIdx_sublist l i) hnd)

/-! Structure of the pruning step and of one active-set iteration. -/

/-- `releaseFriction` never modifies the active set. -/
theorem releaseFriction_active {cts : List UniContactRT} {active : List ℕ} {k : ℕ}
    {out : List UniContactRT × List ℕ}
    (h : releaseFriction cts active k = some out) : out.2 = active := by
  unfold releaseFriction at h
  split at h
  · simp at h
  · split at h
    · simp only [Option.some.injEq] at h
      rw [← h]
    · simp at h

/-- The pruning step only ever erases elements of `active`: distinctness and
membership in any ambient list `P` are preserved. -/
theorem pruneWorst_active_inv {P : List ℕ} {m2a : List (Option ℕ)}
    {cts : List UniContactRT} {active : List ℕ} {wN : ℕ} {wNv : ℝ} {wF : ℕ}
    {wFv : ℝ} {out : List UniContactRT × List ℕ}
    (h : pruneWorst m2a cts active wN wNv wF wFv = some out)
    (hnd : active.Nodup) (hsub : active ⊆ P) :
    out.2.Nodup ∧ out.2 ⊆ P := by
  unfold pruneWorst at h
  split at h
  · split at h
    · simp at h
    · split at h
      · split at h
        · -- frictionless: a single eraseFastAt
          split at h
          · simp at h
          · rw [Option.map_eq_some'] at h
            obtain ⟨act', herase, hout⟩ := h
            rw [← hout]
            exact ⟨eraseFastAt_nodup herase hnd,
                   fun x hx => hsub (eraseFastAt_subset herase hx)⟩
        · -- frictional: three eraseFastAt, highest active position first
          split at h
          · split at h
            · dsimp only at h
              split at h
              · simp at h
              · rename_i act1 herase1
                split at h
                · simp at h
                · rename_i act2 herase2
                  rw [Option.map_eq_some'] at h
                  obtain ⟨act3, herase3, hout⟩ := h
                  rw [← hout]
                  have n1 := eraseFastAt_nodup herase1 hnd
                  have n2 := eraseFastAt_nodup herase2 n1
                  have n3 := eraseFastAt_nodup herase3 n2
                  exact ⟨n3, fun x hx => hsub (eraseFastAt_subset herase1
                    (eraseFastAt_subset herase2 (eraseFastAt_subset herase3 hx)))⟩
            · simp at h
          · simp at h
      · -- worst normal is Rolling: redirect to releaseFriction
        have := releaseFriction_active h
        rw [this]
        exact ⟨hnd, hsub⟩
  · have := releaseFriction_active h
    rw [this]
    exact ⟨hnd, hsub⟩

/-- When an active-set iteration accepts, it leaves `active` unchanged and
appends it to the ghost trace. -/
theorem asStep_done_spec {cx : ASCtx} {st : ASState} {out : ASOut}
    (h : asStep cx st = .done out) :
    out.active = st.active ∧ out.trace = st.trace ++ [st.active] := by
  unfold asStep at h
  split at h
  case isTrue =>
    dsimp only at h
    split at h
    · simp at h
    · split at h
      · simp at h
      · simp only [ASStepRes.done.injEq] at h
        rw [← h]
        exact ⟨rfl, rfl⟩
  case isFalse =>
    dsimp only at h
    split at h
    · simp at h
    · split at h
      · simp at h
      · split at h
        · simp at h
        · split at h
          · simp at h
          · split at h
            · simp at h
            · split at h
              · simp at h
              · split at h
                · simp at h
                · split at h
                  · simp only [ASStepRes.done.injEq] at h
                    rw [← h]
                    exact ⟨rfl, rfl⟩
                  · split at h
                    · simp at h
                    · simp at h

/-- When an active-set iteration prunes and continues, the new active set
comes from `pruneWorst` and the old one is appended to the ghost trace. -/
theorem asStep_next_spec {cx : ASCtx} {st : ASState} {st' : ASState}
    (h : asStep cx st = .next st') :
    st'.trace = st.trace ++ [st.active]
    ∧ ∃ m2a cts wN wNv wF wFv cts',
        pruneWorst m2a cts st.active wN wNv wF wFv = some (cts', st'.active) := by
  unfold asStep at h
  split at h
  case isTrue =>
    dsimp only at h
    split at h
    · simp at h
    · split at h
      · simp at h
      · simp at h
  case isFalse =>
    dsimp only at h
    split at h
    · simp at h
    · split at h
      · simp at h
      · split at h
        · simp at h
        · split at h
          · simp at h
          · split at h
            · simp at h
            · split at h
              · simp at h
              · split at h
                · simp at h
                · split at h
                  · simp at h
                  · split at h
                    · simp at h
                    · rename_i prune hprune
                      simp only [ASStepRes.next.injEq] at h
                      rw [← h]
                      exact ⟨rfl, _, _, _, _, _, _, _, hprune⟩

/-- Every active set recorded by the active-set loop is duplicate-free and a
subset of the ambient list `P` containing the initial active set. -/
theorem activeSetLoop_trace_inv (P : List ℕ) (cx : ASCtx) :
    ∀ (fuel : ℕ) (st : ASState) (out : ASOut),
      activeSetLoop cx fuel st = .ok out →
      st.active.Nodup → st.active ⊆ P →
      (∀ a ∈ st.trace, a.Nodup ∧ a ⊆ P) →
      (∀ a ∈ out.trace, a.Nodup ∧ a ⊆ P) := by
  intro fuel
  induction fuel with
  | zero => intro st out h; simp [activeSetLoop] at h
  | succ n ih =>
    intro st out h hnd hsub htr
    unfold activeSetLoop at h
    cases hstep : asStep cx st with
    | fail => rw [hstep] at h; exact absurd h (by simp)
    | done out0 =>
      rw [hstep] at h
      simp only [Res.ok.injEq] at h
      subst h
      obtain ⟨hact, htrace⟩ := asStep_done_spec hstep
      rw [htrace]
      intro a ha
      rcases List.mem_append.mp ha with ha | ha
      · exact htr a ha
      · rcases List.mem_singleton.mp ha with rfl
        exact ⟨hnd, hsub⟩
    | next st' =>
      rw [hstep] at h
      obtain ⟨htrace, m2a, cts, wN, wNv, wF, wFv, cts', hprune⟩ := asStep_next_spec hstep
      have hinv := pruneWorst_active_inv hprune hnd hsub
      apply ih st' out h hinv.1 hinv.2
      rw [htrace]
      intro a ha
      rcases List.mem_append.mp ha with ha | ha
      · exact htr a ha
      · rcases List.mem_singleton.mp ha with rfl
        exact ⟨hnd, hsub⟩

/-- One sliding interval preserves the trace invariant: each interval
restarts from `active = participating`. -/
theorem intervalStep_trace_inv {prm : SolverParams}
    {lsq : (ℕ → ℕ → ℝ) → List ℝ → List ℝ} {inp : ProblemInputs}
    {asFuel lsFuel : ℕ} {verrLeft piELeft piTotal : List ℝ}
    {cts : List UniContactRT} {trace : List (List ℕ)} {iv : IntervalOut}
    (h : intervalStep prm lsq inp asFuel lsFuel verrLeft piELeft piTotal cts trace = .ok iv)
    (hnd : inp.participating.Nodup)
    (htr : ∀ a ∈ trace, a.Nodup ∧ a ⊆ inp.participating) :
    ∀ a ∈ iv.trace, a.Nodup ∧ a ⊆ inp.participating := by
  unfold intervalStep at h
  dsimp only at h
  split at h
  · simp at h
  · split at h
    · simp at h
    · simp at h
    · rename_i out hloop
      split at h
      · simp at h
      · simp only [Res.ok.injEq] at h
        rw [← h]
        exact activeSetLoop_trace_inv inp.participating _ asFuel _ out hloop hnd
          (fun x hx => hx) htr

/-- The interval loop preserves the trace invariant. -/
theorem intervalLoop_trace_inv {prm : SolverParams}
    {lsq : (ℕ → ℕ → ℝ) → List ℝ → List ℝ} {inp : ProblemInputs}
    {asFuel lsFuel : ℕ} :
    ∀ (ivFuel : ℕ) (verrLeft piELeft piTotal : List ℝ) (cts : List UniContactRT)
      (trace : List (List ℕ)) (r : SolveResult),
      intervalLoop prm lsq inp asFuel lsFuel ivFuel verrLeft piELeft piTotal cts trace = .ok r →
      inp.participating.Nodup →
      (∀ a ∈ trace, a.Nodup ∧ a ⊆ inp.participating) →
      (∀ a ∈ r.activeTrace, a.Nodup ∧ a ⊆ inp.participating) := by
  intro ivFuel
  induction ivFuel with
  | zero => intro _ _ _ _ _ _ h; simp [intervalLoop] at h
  | succ n ih =>
    intro verrLeft piELeft piTotal cts trace r h hnd htr
    unfold intervalLoop at h
    cases hstep : intervalStep prm lsq inp asFuel lsFuel verrLeft piELeft piTotal cts trace with
    | crash => rw [hstep] at h; exact absurd h (by simp)
    | fuelOut => rw [hstep] at h; exact absurd h (by simp)
    | ok iv =>
      rw [hstep] at h
      dsimp only at h
      have hiv := intervalStep_trace_inv hstep hnd htr
      split at h
      · exact ih iv.verrLeft iv.piELeft iv.piTotal iv.cts iv.trace r h hnd hiv
      · simp only [Res.ok.injEq] at h
        rw [← h]
        exact hiv

/-- C4 amended: throughout `solve`, every recorded active set has
`|active| = na` (by construction), all indices distinct, and each index
belonging to `participating` — a duplicate-free subset. This survives the
swap-with-last pruning erase; what the erase does not preserve is the
relative order, so `active` need not be a subsequence (see the
counterexample). -/
theorem C4_amended_nodup_subset (prm : SolverParams)
    (lsq : (ℕ → ℕ → ℝ) → List ℝ → List ℝ) (inp : ProblemInputs)
    (ivFuel asFuel lsFuel : ℕ) (r : SolveResult)
    (hnd : inp.participating.Nodup)
    (h : PLUSsolve prm lsq inp ivFuel asFuel lsFuel = .ok r) :
    ∀ a ∈ r.activeTrace, a.Nodup ∧ a ⊆ inp.participating := by
  unfold PLUSsolve at h
  split at h
  · simp only [Res.ok.injEq] at h
    rw [← h]
    intro a ha
    simp at ha
  · exact intervalLoop_trace_inv ivFuel inp.verr inp.piExpand
      (List.replicate inp.m 0) inp.uniContact [] r h hnd (by simp)

/-- C4 witness: the amended invariant applied to the counterexample run, at
the traced active set `[2, 1]`. -/
theorem C4_witness : ([2, 1] : List ℕ).Nodup ∧ ([2, 1] : List ℕ) ⊆ [0, 1, 2] :=
  C4_amended_nodup_subset prmT lsqDiag inpC4 1 2 2 _ (by decide) solveC4_run
    [2, 1] (by decide)


theorem getD_set_self (l : List ℝ) (i : ℕ) (v d : ℝ) (h : i < l.length) :
    (l.set i v).getD i d = v := by
  rw [List.getD_eq_getElem?_getD, List.getElem?_set_self', List.getElem?_eq_getElem h]
  rfl

theorem getD_set_ne (l : List ℝ) {i j : ℕ} (v d : ℝ) (hne : i ≠ j) :
    (l.set i v).getD j d = l.getD j d := by
  rw [List.getD_eq_getElem?_getD, List.getElem?_set_ne hne, ← List.getD_eq_getElem?_getD]

theorem getD_map_range (f : ℕ → ℝ) {n i : ℕ} (hi : i < n) :
    ((List.range n).map f).getD i 0 = f i := by
  rw [List.getD_eq_getElem?_getD, List.getElem?_map, List.getElem?_range hi]
  rfl

/-- A contact whose residual rows `updateDirectionsAndCalcCurrentError`
replaces: not `UniOff`, frictional, and Sliding or Impending. -/
def udceRelevant (rt : UniContactRT) : Prop :=
  ¬(rt.m_contactCond = .UniOff ∨ rt.hasFriction = false)
  ∧ (rt.m_frictionCond = .Sliding ∨ rt.m_frictionCond = .Impending)

/-- The active rows belonging to a contact's friction components. -/
def fricRows (m2a : List (Option ℕ)) (rt : UniContactRT) : List ℕ :=
  rt.m_Fk.filterMap fun mx => m2a.getD mx none

theorem udceContact_spec {A : ℕ → ℕ → ℝ} {active : List ℕ}
    {m2a : List (Option ℕ)} {verrExpand piELeft piActive : List ℝ}
    {rt rt' : UniContactRT} {err err2 : List ℝ}
    (h : udceContact A active m2a verrExpand piELeft piActive rt err = some (rt', err2)) :
    err2.length = err.length
    ∧ (¬udceRelevant rt → rt' = rt ∧ err2 = err)
    ∧ rt'.m_Fk = rt.m_Fk ∧ rt'.m_effMu = rt.m_effMu
    ∧ rt'.m_contactCond = rt.m_contactCond ∧ rt'.m_frictionCond = rt.m_frictionCond
    ∧ (∀ ai, ai ∉ fricRows m2a rt → err2.getD ai 0 = err.getD ai 0)
    ∧ (udceRelevant rt →
        ∃ mx my ax ay, rt.m_Fk = [mx, my]
          ∧ m2a.getD mx none = some ax ∧ m2a.getD my none = some ay
          ∧ (rt.m_frictionCond = .Sliding → rt' = rt)
          ∧ (rt.m_frictionCond = .Impending →
              rt'.m_slipVel =
                (multRowTimesActiveCol A mx active piActive + verrExpand.getD mx 0,
                 multRowTimesActiveCol A my active piActive + verrExpand.getD my 0)
              ∧ rt'.m_slipMag = norm2 rt'.m_slipVel)
          ∧ ∃ zc,
              ((rt.m_contactCond = .UniActive ∧ ∃ az, m2a.getD rt.m_Nk none = some az
                  ∧ zc = min (piActive.getD az 0) 0)
                ∨ (rt.m_contactCond ≠ .UniActive ∧ zc = 0))
              ∧ (ax ≠ ay → ax < err.length → ay < err.length →
                  err2.getD ax 0 = rt'.m_slipMag * piActive.getD ax 0
                    + rt.m_effMu * rt'.m_slipVel.1 * (piELeft.getD rt.m_Nk 0 + zc)
                  ∧ err2.getD ay 0 = rt'.m_slipMag * piActive.getD ay 0
                    + rt.m_effMu * rt'.m_slipVel.2 * (piELeft.getD rt.m_Nk 0 + zc))) := by
  unfold udceContact at h
  split at h
  · -- UniOff or frictionless: skipped
    rename_i hskip
    simp only [Option.some.injEq, Prod.mk.injEq] at h
    obtain ⟨hrt, herr⟩ := h
    subst hrt
    subst herr
    exact ⟨rfl, fun _ => ⟨rfl, rfl⟩, rfl, rfl, rfl, rfl, fun _ _ => rfl,
      fun hrel => absurd hskip hrel.1.elim⟩
  · split at h
    · -- neither Sliding nor Impending: skipped
      rename_i hskip hfc
      simp only [Option.some.injEq, Prod.mk.injEq] at h
      obtain ⟨hrt, herr⟩ := h
      subst hrt
      subst herr
      exact ⟨rfl, fun _ => ⟨rfl, rfl⟩, rfl, rfl, rfl, rfl, fun _ _ => rfl,
        fun hrel => absurd hrel.2 hfc⟩
    · -- relevant
      rename_i hskip hfc
      push_neg at hfc
      split at h
      · -- Fk = [mx, my]
        rename_i mx my hfk
        dsimp only at h
        split at h
        · -- both friction rows map to valid active indices
          rename_i hboth ax ay hax hay
          split at h
          · -- normal is UniActive: additional min(piz,0) term
            rename_i hua
            split at h
            · -- az valid
              rename_i az haz
              simp only [Option.some.injEq, Prod.mk.injEq] at h
              obtain ⟨hrt, herr⟩ := h
              rw [hrt] at herr
              have hrel : udceRelevant rt := ⟨hskip, hfc⟩
              have hfkpres : rt'.m_Fk = rt.m_Fk := by
                rw [← hrt]; split <;> rfl
              have hmupres : rt'.m_effMu = rt.m_effMu := by
                rw [← hrt]; split <;> rfl
              have hccpres : rt'.m_contactCond = rt.m_contactCond := by
                rw [← hrt]; split <;> rfl
              have hfcpres : rt'.m_frictionCond = rt.m_frictionCond := by
                rw [← hrt]; split <;> rfl
              have hrows : fricRows m2a rt = [ax, ay] := by
                simp only [fricRows, hfk, List.filterMap_cons, List.filterMap_nil, hax, hay]
              refine ⟨?_, fun hn => absurd hrel hn, hfkpres, hmupres, hccpres, hfcpres, ?_, ?_⟩
              · rw [← herr]
                simp [List.length_set]
              · intro ai hai
                rw [hrows] at hai
                simp only [List.mem_cons, List.not_mem_nil, or_false, not_or] at hai
                obtain ⟨hne1, hne2⟩ := hai
                rw [← herr, getD_set_ne _ _ _ (Ne.symm hne2), getD_set_ne _ _ _ (Ne.symm hne1),
                  getD_set_ne _ _ _ (Ne.symm hne2), getD_set_ne _ _ _ (Ne.symm hne1)]
              · intro _
                refine ⟨mx, my, ax, ay, hfk, hax, hay, ?_, ?_, ?_⟩
                · intro hs
                  rw [← hrt, if_neg (by rw [hs]; decide)]
                · intro him
                  rw [← hrt, if_pos him]
                  exact ⟨rfl, rfl⟩
                · refine ⟨min (piActive.getD az 0) 0, Or.inl ⟨hua, az, haz, rfl⟩, ?_⟩
                  intro hne hxlen hylen
                  have hl1 : (err.set ax (rt'.m_slipMag * piActive.getD ax 0
                      + rt.m_effMu * rt'.m_slipVel.1 * piELeft.getD rt.m_Nk 0)).length
                      = err.length := List.length_set _ _ _
                  constructor
                  · rw [← herr, getD_set_ne _ _ _ (Ne.symm hne), getD_set_self _ _ _ _
                      (by simp [List.length_set]; omega),
                      getD_set_ne _ _ _ (Ne.symm hne), getD_set_self _ _ _ _ (by omega)]
                    ring
                  · rw [← herr, getD_set_self _ _ _ _ (by simp [List.length_set]; omega),
                      getD_set_ne _ _ _ hne, getD_set_self _ _ _ _ (by simp [List.length_set]; omega)]
                    ring
            · simp at h
          · -- normal not UniActive
            rename_i hua
            simp only [Option.some.injEq, Prod.mk.injEq] at h
            obtain ⟨hrt, herr⟩ := h
            rw [hrt] at herr
            have hrel : udceRelevant rt := ⟨hskip, hfc⟩
            have hfkpres : rt'.m_Fk = rt.m_Fk := by
              rw [← hrt]; split <;> rfl
            have hmupres : rt'.m_effMu = rt.m_effMu := by
              rw [← hrt]; split <;> rfl
            have hccpres : rt'.m_contactCond = rt.m_contactCond := by
              rw [← hrt]; split <;> rfl
            have hfcpres : rt'.m_frictionCond = rt.m_frictionCond := by
              rw [← hrt]; split <;> rfl
            have hrows : fricRows m2a rt = [ax, ay] := by
              simp only [fricRows, hfk, List.filterMap_cons, List.filterMap_nil, hax, hay]
            refine ⟨?_, fun hn => absurd hrel hn, hfkpres, hmupres, hccpres, hfcpres, ?_, ?_⟩
            · rw [← herr]
              simp [List.length_set]
            · intro ai hai
              rw [hrows] at hai
              simp only [List.mem_cons, List.not_mem_nil, or_false, not_or] at hai
              obtain ⟨hne1, hne2⟩ := hai
              rw [← herr, getD_set_ne _ _ _ (Ne.symm hne2), getD_set_ne _ _ _ (Ne.symm hne1)]
            · intro _
              refine ⟨mx, my, ax, ay, hfk, hax, hay, ?_, ?_, ?_⟩
              · intro hs
                rw [← hrt, if_neg (by rw [hs]; decide)]
              · intro him
                rw [← hrt, if_pos him]
                exact ⟨rfl, rfl⟩
              · refine ⟨0, Or.inr ⟨hua, rfl⟩, ?_⟩
                intro hne hxlen hylen
                constructor
                · rw [← herr, getD_set_ne _ _ _ (Ne.symm hne),
                    getD_set_self _ _ _ _ (by omega)]
                  ring
                · rw [← herr, getD_set_self _ _ _ _ (by simp [List.length_set]; omega)]
                  ring
        · simp at h
      · simp at h


theorem udceGo_spec {A : ℕ → ℕ → ℝ} {active : List ℕ} {m2a : List (Option ℕ)}
    {verrExpand piELeft piActive : List ℝ} (cts : List UniContactRT)
    (err : List ℝ) (cts' : List UniContactRT) (err' : List ℝ)
    (h : udceGo A active m2a verrExpand piELeft piActive cts err = some (cts', err')) :
    err'.length = err.length
    ∧ (∀ ai, (∀ rt ∈ cts, udceRelevant rt → ai ∉ fricRows m2a rt) →
        err'.getD ai 0 = err.getD ai 0)
    ∧ (∀ (i : ℕ) (rt : UniContactRT), cts[i]? = some rt →
        ∃ rt', cts'[i]? = some rt'
          ∧ rt'.m_Fk = rt.m_Fk ∧ rt'.m_effMu = rt.m_effMu
          ∧ rt'.m_contactCond = rt.m_contactCond
          ∧ rt'.m_frictionCond = rt.m_frictionCond
          ∧ (¬udceRelevant rt → rt' = rt)
          ∧ (udceRelevant rt →
              ∃ mx my ax ay, rt.m_Fk = [mx, my]
                ∧ m2a.getD mx none = some ax ∧ m2a.getD my none = some ay
                ∧ (rt.m_frictionCond = .Sliding → rt' = rt)
                ∧ (rt.m_frictionCond = .Impending →
                    rt'.m_slipVel =
                      (multRowTimesActiveCol A mx active piActive + verrExpand.getD mx 0,
                       multRowTimesActiveCol A my active piActive + verrExpand.getD my 0)
                    ∧ rt'.m_slipMag = norm2 rt'.m_slipVel)
                ∧ ∃ zc,
                    ((rt.m_contactCond = .UniActive ∧ ∃ az,
                        m2a.getD rt.m_Nk none = some az
                        ∧ zc = min (piActive.getD az 0) 0)
                      ∨ (rt.m_contactCond ≠ .UniActive ∧ zc = 0))
                    ∧ ((∀ (j : ℕ) (rt2 : UniContactRT), cts[j]? = some rt2 → i < j → udceRelevant rt2 →
                          ax ∉ fricRows m2a rt2 ∧ ay ∉ fricRows m2a rt2) →
                        ax ≠ ay → ax < err.length → ay < err.length →
                        err'.getD ax 0 = rt'.m_slipMag * piActive.getD ax 0
                          + rt.m_effMu * rt'.m_slipVel.1 * (piELeft.getD rt.m_Nk 0 + zc)
                        ∧ err'.getD ay 0 = rt'.m_slipMag * piActive.getD ay 0
                          + rt.m_effMu * rt'.m_slipVel.2 * (piELeft.getD rt.m_Nk 0 + zc)))) := by
  induction cts generalizing err cts' err' with
  | nil =>
    simp only [udceGo, Option.some.injEq, Prod.mk.injEq] at h
    obtain ⟨hc, he⟩ := h
    subst hc
    subst he
    refine ⟨rfl, fun _ _ => rfl, ?_⟩
    intro i rt hi
    simp at hi
  | cons rt0 rest ih =>
    rw [udceGo] at h
    split at h
    · simp at h
    · rename_i rt0' err1 heq
      split at h
      · simp at h
      · rename_i rest' err2 heq2
        simp only [Option.some.injEq, Prod.mk.injEq] at h
        obtain ⟨hc, he⟩ := h
        subst hc
        subst he
        obtain ⟨hlen1, hskipid, hfk0, hmu0, hcc0, hfc0, huntouched, hrelfacts⟩ :=
          udceContact_spec heq
        obtain ⟨ihlen, ihuntouched, ihcontacts⟩ := ih err1 rest' err2 heq2
        refine ⟨ihlen.trans hlen1, ?_, ?_⟩
        · intro ai hai
          have h1 : err1.getD ai 0 = err.getD ai 0 := by
            by_cases hrel : udceRelevant rt0
            · exact huntouched ai (hai rt0 (List.mem_cons_self _ _) hrel)
            · rw [(hskipid hrel).2]
          have h2 : err2.getD ai 0 = err1.getD ai 0 :=
            ihuntouched ai (fun rt2 hmem hrel2 => hai rt2 (List.mem_cons_of_mem _ hmem) hrel2)
          exact h2.trans h1
        · intro i rt hi
          cases i with
          | zero =>
            simp only [List.getElem?_cons_zero, Option.some.injEq] at hi
            subst hi
            refine ⟨rt0', by simp, hfk0, hmu0, hcc0, hfc0,
              fun hn => (hskipid hn).1, ?_⟩
            intro hrel
            obtain ⟨mx, my, ax, ay, hfk2, hax, hay, hsl, himp, zc, hzc, hrowsfn⟩ :=
              hrelfacts hrel
            refine ⟨mx, my, ax, ay, hfk2, hax, hay, hsl, himp, zc, hzc, ?_⟩
            intro hlater hne hxb hyb
            have hrows1 := hrowsfn hne hxb hyb
            have hxlater : ∀ rt2 ∈ rest, udceRelevant rt2 → ax ∉ fricRows m2a rt2 := by
              intro rt2 hmem hrel2
              obtain ⟨j, hj⟩ := List.mem_iff_getElem?.mp hmem
              exact (hlater (j + 1) rt2 (by simpa using hj) (Nat.succ_pos j) hrel2).1
            have hylater : ∀ rt2 ∈ rest, udceRelevant rt2 → ay ∉ fricRows m2a rt2 := by
              intro rt2 hmem hrel2
              obtain ⟨j, hj⟩ := List.mem_iff_getElem?.mp hmem
              exact (hlater (j + 1) rt2 (by simpa using hj) (Nat.succ_pos j) hrel2).2
            exact ⟨(ihuntouched ax hxlater).trans hrows1.1,
                   (ihuntouched ay hylater).trans hrows1.2⟩
          | succ n =>
            rw [List.getElem?_cons_succ] at hi
            obtain ⟨rt', hrt', hfk', hmu', hcc', hfc', hskip', hrel'⟩ := ihcontacts n rt hi
            refine ⟨rt', by simpa [List.getElem?_cons_succ] using hrt',
              hfk', hmu', hcc', hfc', hskip', ?_⟩
            intro hrel
            obtain ⟨mx, my, ax, ay, hfk2, hax, hay, hsl, himp, zc, hzc, hrowsfn⟩ :=
              hrel' hrel
            refine ⟨mx, my, ax, ay, hfk2, hax, hay, hsl, himp, zc, hzc, ?_⟩
            intro hlater hne hxb hyb
            refine hrowsfn ?_ hne (by rw [hlen1]; exact hxb) (by rw [hlen1]; exact hyb)
            intro j rt2 hj hij hrel2
            exact hlater (j + 1) rt2 (by simpa using hj) (by omega) hrel2

/-- C7: the residual of `updateDirectionsAndCalcCurrentError` is
`err[ai] = Σ_j A(active[ai], active[j]) piActive[j] - rhsActive[ai]` on every
active row not owned as friction row by a Sliding/Impending frictional contact
whose normal participates, and for every such contact with friction rows
`(ax, ay)` the rows read
`err[ax] = |d| pix + mu dx (pizE + zc)` (and the `y` analogue) where `d` is the
slip direction (recomputed from the current impulse for Impending),
`pizE = piELeft[Nk]`, and `zc = min(piz, 0)` for a `UniActive` normal and `0`
otherwise; the friction rows of distinct contacts are assumed disjoint. -/
theorem C7_residual_rows {A : ℕ → ℕ → ℝ} {active : List ℕ}
    {m2a : List (Option ℕ)} {verrExpand rhsActive piELeft piActive err : List ℝ}
    {cts cts' : List UniContactRT}
    (h : updateDirectionsAndCalcCurrentError A active m2a verrExpand rhsActive
          piELeft cts piActive = some (cts', err)) :
    err.length = active.length
    ∧ (∀ ai, (∀ rt ∈ cts, udceRelevant rt → ai ∉ fricRows m2a rt) →
        ai < active.length →
        err.getD ai 0 =
          multRowTimesActiveCol A (active.getD ai 0) active piActive
            - rhsActive.getD ai 0)
    ∧ (∀ (i : ℕ) (rt : UniContactRT), cts[i]? = some rt → udceRelevant rt →
        ∃ rt', cts'[i]? = some rt'
          ∧ ∃ mx my ax ay, rt.m_Fk = [mx, my]
            ∧ m2a.getD mx none = some ax ∧ m2a.getD my none = some ay
            ∧ (rt.m_frictionCond = .Sliding → rt' = rt)
            ∧ (rt.m_frictionCond = .Impending →
                rt'.m_slipVel =
                  (multRowTimesActiveCol A mx active piActive + verrExpand.getD mx 0,
                   multRowTimesActiveCol A my active piActive + verrExpand.getD my 0)
                ∧ rt'.m_slipMag = norm2 rt'.m_slipVel)
            ∧ ∃ zc,
                ((rt.m_contactCond = .UniActive ∧ ∃ az,
                    m2a.getD rt.m_Nk none = some az
                    ∧ zc = min (piActive.getD az 0) 0)
                  ∨ (rt.m_contactCond ≠ .UniActive ∧ zc = 0))
                ∧ ((∀ (j : ℕ) (rt2 : UniContactRT), cts[j]? = some rt2 → i < j → udceRelevant rt2 →
                      ax ∉ fricRows m2a rt2 ∧ ay ∉ fricRows m2a rt2) →
                    ax ≠ ay → ax < active.length → ay < active.length →
                    err.getD ax 0 = rt'.m_slipMag * piActive.getD ax 0
                      + rt.m_effMu * rt'.m_slipVel.1 * (piELeft.getD rt.m_Nk 0 + zc)
                    ∧ err.getD ay 0 = rt'.m_slipMag * piActive.getD ay 0
                      + rt.m_effMu * rt'.m_slipVel.2 * (piELeft.getD rt.m_Nk 0 + zc))) := by
  rw [updateDirectionsAndCalcCurrentError] at h
  obtain ⟨hlen, huntouched, hcontacts⟩ := udceGo_spec _ _ _ _ h
  have hlen0 : ((List.range active.length).map fun ai =>
      multRowTimesActiveCol A (active.getD ai 0) active piActive
        - rhsActive.getD ai 0).length = active.length := by
    simp
  refine ⟨hlen.trans hlen0, ?_, ?_⟩
  · intro ai hai hlt
    rw [huntouched ai hai, getD_map_range _ hlt]
  · intro i rt hi hrel
    obtain ⟨rt', hrt', _, _, _, _, _, hrel'⟩ := hcontacts i rt hi
    obtain ⟨mx, my, ax, ay, hfk2, hax, hay, hsl, himp, zc, hzc, hrowsfn⟩ := hrel' hrel
    refine ⟨rt', hrt', mx, my, ax, ay, hfk2, hax, hay, hsl, himp, zc, hzc, ?_⟩
    intro hlater hne hxb hyb
    exact hrowsfn hlater hne (by rw [hlen0]; exact hxb) (by rw [hlen0]; exact hyb)


def C7A : ℕ → ℕ → ℝ := fun _ _ => 1

def C7rt : UniContactRT :=
  ⟨.Participating, 0, [1, 2], 1 / 2, 1, .UniActive, .Sliding, (3, 4), 5⟩

def C7pia : List ℝ := [-1, 2, 3]

theorem C7_witness :
    updateDirectionsAndCalcCurrentError C7A [0, 1, 2] [some 0, some 1, some 2]
        [0, 0, 0] [0, 0, 0] [10] [C7rt] C7pia = some ([C7rt], [4, 47 / 2, 33])
    ∧ ([4, 47 / 2, 33] : List ℝ).getD 0 0
        = multRowTimesActiveCol C7A (([0, 1, 2] : List ℕ).getD 0 0) [0, 1, 2] C7pia
            - ([0, 0, 0] : List ℝ).getD 0 0
    ∧ ([4, 47 / 2, 33] : List ℝ).getD 1 0
        = C7rt.m_slipMag * C7pia.getD 1 0
          + C7rt.m_effMu * C7rt.m_slipVel.1
            * (([10] : List ℝ).getD C7rt.m_Nk 0 + min (C7pia.getD 0 0) 0)
    ∧ ([4, 47 / 2, 33] : List ℝ).getD 2 0
        = C7rt.m_slipMag * C7pia.getD 2 0
          + C7rt.m_effMu * C7rt.m_slipVel.2
            * (([10] : List ℝ).getD C7rt.m_Nk 0 + min (C7pia.getD 0 0) 0) := by
  have hmin : min (-1 : ℝ) 0 = -1 := by norm_num [min_def]
  have hr3 : List.range 3 = [0, 1, 2] := rfl
  have h : updateDirectionsAndCalcCurrentError C7A [0, 1, 2] [some 0, some 1, some 2]
      [0, 0, 0] [0, 0, 0] [10] [C7rt] C7pia = some ([C7rt], [4, 47 / 2, 33]) := by
    norm_num [updateDirectionsAndCalcCurrentError, udceGo, udceContact, C7A, C7rt, C7pia,
      multRowTimesActiveCol, UniContactRT.hasFriction, hr3, hmin, List.getD]
  obtain ⟨hlen, hlin, hfric⟩ := C7_residual_rows h
  have hrel : udceRelevant C7rt := by
    constructor
    · simp [C7rt, UniContactRT.hasFriction]
    · exact Or.inl rfl
  obtain ⟨rt', hrt', mx, my, ax, ay, hfk2, hax, hay, hsl, _himp, zc, hzc, hrowsfn⟩ :=
    hfric 0 C7rt rfl hrel
  have hrteq : rt' = C7rt := hsl rfl
  subst hrteq
  have hfk2' : ([1, 2] : List ℕ) = [mx, my] := hfk2
  injection hfk2' with hmx hrest
  injection hrest with hmy hnil
  subst hmx
  subst hmy
  simp only [List.getD] at hax hay
  simp at hax hay
  subst hax
  subst hay
  rcases hzc with ⟨-, az, haz, hzceq⟩ | ⟨hna, -⟩
  · simp only [List.getD] at haz
    simp [C7rt] at haz
    subst haz
    subst hzceq
    have hlater : ∀ (j : ℕ) (rt2 : UniContactRT),
        ([C7rt] : List UniContactRT)[j]? = some rt2 → 0 < j → udceRelevant rt2 →
        1 ∉ fricRows [some 0, some 1, some 2] rt2
          ∧ 2 ∉ fricRows [some 0, some 1, some 2] rt2 := by
      intro j rt2 hj hij _
      cases j with
      | zero => exact absurd hij (lt_irrefl 0)
      | succ n => simp at hj
    have hrows := hrowsfn hlater (by decide) (by decide) (by decide)
    exact ⟨h, hlin 0 (by
        intro rt hmem hr
        rw [List.mem_singleton] at hmem
        subst hmem
        simp [fricRows, C7rt, List.getD]) (by decide),
      hrows.1, hrows.2⟩
  · exact absurd rfl hna

/-! Termination measure of the active-set loop. -/

/-- Number of contacts currently classified `Rolling`. -/
def countRolling (cts : List UniContactRT) : ℕ :=
  cts.countP fun rt => decide (rt.m_frictionCond = .Rolling)

/-- The friction-classification vector of a contact array. -/
def fricConds (cts : List UniContactRT) : List FricCond :=
  cts.map fun rt => rt.m_frictionCond

theorem countRolling_congr {cts1 cts2 : List UniContactRT}
    (h : fricConds cts1 = fricConds cts2) :
    countRolling cts1 = countRolling cts2 := by
  have h1 : countRolling cts1
      = (fricConds cts1).countP fun c => decide (c = FricCond.Rolling) := by
    rw [fricConds, List.countP_map]
    rfl
  have h2 : countRolling cts2
      = (fricConds cts2).countP fun c => decide (c = FricCond.Rolling) := by
    rw [fricConds, List.countP_map]
    rfl
  rw [h1, h2, h]

theorem countRolling_set_congr {cts : List UniContactRT} {k : ℕ}
    {rt rt' : UniContactRT} (hk : cts.get? k = some rt)
    (hsame : rt'.m_frictionCond = rt.m_frictionCond) :
    countRolling (cts.set k rt') = countRolling cts := by
  induction cts generalizing k with
  | nil => simp at hk
  | cons a l ih =>
    cases k with
    | zero =>
      rw [List.get?_cons_zero, Option.some.injEq] at hk
      subst hk
      simp [countRolling, List.countP_cons, hsame]
    | succ n =>
      rw [List.get?_cons_succ] at hk
      have h2 := ih hk
      simp only [countRolling] at h2 ⊢
      rw [List.set_cons_succ, List.countP_cons, List.countP_cons, h2]

theorem countRolling_set_release {cts : List UniContactRT} {k : ℕ}
    {rt rt' : UniContactRT} (hk : cts.get? k = some rt)
    (hroll : rt.m_frictionCond = .Rolling)
    (hnot : rt'.m_frictionCond ≠ .Rolling) :
    countRolling (cts.set k rt') + 1 = countRolling cts := by
  induction cts generalizing k with
  | nil => simp at hk
  | cons a l ih =>
    cases k with
    | zero =>
      rw [List.get?_cons_zero, Option.some.injEq] at hk
      subst hk
      simp [countRolling, List.countP_cons, hroll, hnot]
    | succ n =>
      rw [List.get?_cons_succ] at hk
      have h2 := ih hk
      simp only [countRolling] at h2 ⊢
      rw [List.set_cons_succ, List.countP_cons, List.countP_cons]
      omega

theorem releaseFriction_eq {cts : List UniContactRT} {active : List ℕ} {k : ℕ}
    {out : List UniContactRT × List ℕ} (h : releaseFriction cts active k = some out) :
    ∃ rt, cts.get? k = some rt
      ∧ out = (cts.set k { rt with m_frictionCond := .Impending }, active) := by
  unfold releaseFriction at h
  split at h
  · simp at h
  · rename_i rt hget
    split at h
    · simp only [Option.some.injEq] at h
      exact ⟨rt, hget, h.symm⟩
    · simp at h

theorem projectUniFriction_worst {m2a : List (Option ℕ)} {pia piELeft : List ℝ} :
    ∀ (cts : List UniContactRT) (k0 : ℕ) (pg : List ℝ) (wk0 : ℕ) (wv0 : ℝ)
      (out : List ℝ × ℕ × ℝ),
      projectUniFriction m2a pia piELeft cts k0 (pg, wk0, wv0) = some out →
      (out.2.1 = wk0 ∧ out.2.2 = wv0)
      ∨ ∃ j rt, cts.get? j = some rt ∧ rt.m_frictionCond = .Rolling
          ∧ out.2.1 = k0 + j := by
  intro cts
  induction cts with
  | nil =>
    intro k0 pg wk0 wv0 out h
    simp only [projectUniFriction, Option.some.injEq] at h
    subst h
    exact Or.inl ⟨rfl, rfl⟩
  | cons rt rest ih =>
    intro k0 pg wk0 wv0 out h
    rw [projectUniFriction] at h
    split at h
    · rcases ih _ _ _ _ _ h with hl | ⟨j, rt2, hj, hr, hk⟩
      · exact Or.inl hl
      · refine Or.inr ⟨j + 1, rt2, ?_, hr, by omega⟩
        rw [List.get?_cons_succ]
        exact hj
    · split at h
      · simp at h
      · split at h
        · simp at h
        · dsimp only at h
          split at h
          · rename_i hroll
            split at h
            · simp at h
            · split at h
              · split at h
                · -- new worst friction violation recorded at this contact
                  split at h
                  · simp at h
                  · rename_i pg' hcopy
                    rcases ih _ _ _ _ _ h with ⟨hk, _⟩ | ⟨j, rt2, hj, hr, hk⟩
                    · exact Or.inr ⟨0, rt, List.get?_cons_zero, hroll, by omega⟩
                    · refine Or.inr ⟨j + 1, rt2, ?_, hr, by omega⟩
                      rw [List.get?_cons_succ]
                      exact hj
                · split at h
                  · simp at h
                  · rename_i pg' hcopy
                    rcases ih _ _ _ _ _ h with hl | ⟨j, rt2, hj, hr, hk⟩
                    · exact Or.inl hl
                    · refine Or.inr ⟨j + 1, rt2, ?_, hr, by omega⟩
                      rw [List.get?_cons_succ]
                      exact hj
              · split at h
                · simp at h
                · rename_i pg' hcopy
                  rcases ih _ _ _ _ _ h with hl | ⟨j, rt2, hj, hr, hk⟩
                  · exact Or.inl hl
                  · refine Or.inr ⟨j + 1, rt2, ?_, hr, by omega⟩
                    rw [List.get?_cons_succ]
                    exact hj
          · split at h
            · simp at h
            · rename_i pg' hcopy
              rcases ih _ _ _ _ _ h with hl | ⟨j, rt2, hj, hr, hk⟩
              · exact Or.inl hl
              · refine Or.inr ⟨j + 1, rt2, ?_, hr, by omega⟩
                rw [List.get?_cons_succ]
                exact hj

theorem udceGo_fricConds {A : ℕ → ℕ → ℝ} {active : List ℕ}
    {m2a : List (Option ℕ)} {verrExpand piELeft piActive : List ℝ} :
    ∀ (cts : List UniContactRT) (err : List ℝ) (cts' : List UniContactRT)
      (err' : List ℝ),
      udceGo A active m2a verrExpand piELeft piActive cts err = some (cts', err') →
      fricConds cts' = fricConds cts := by
  intro cts
  induction cts with
  | nil =>
    intro err cts' err' h
    simp only [udceGo, Option.some.injEq, Prod.mk.injEq] at h
    rw [← h.1]
  | cons rt0 rest ih =>
    intro err cts' err' h
    rw [udceGo] at h
    split at h
    · simp at h
    · rename_i rt0' err1 heq
      split at h
      · simp at h
      · rename_i rest' err2 heq2
        simp only [Option.some.injEq, Prod.mk.injEq] at h
        obtain ⟨hc, he⟩ := h
        subst hc
        have hfc := (udceContact_spec heq).2.2.2.2.2.1
        have hrest := ih _ _ _ heq2
        simp only [fricConds, List.map_cons] at hrest ⊢
        rw [hfc, hrest]

theorem udce_fricConds {A : ℕ → ℕ → ℝ} {active : List ℕ} {m2a : List (Option ℕ)}
    {verrExpand rhsActive piELeft piActive err : List ℝ}
    {cts cts' : List UniContactRT}
    (h : updateDirectionsAndCalcCurrentError A active m2a verrExpand rhsActive
          piELeft cts piActive = some (cts', err)) :
    fricConds cts' = fricConds cts := by
  rw [updateDirectionsAndCalcCurrentError] at h
  exact udceGo_fricConds _ _ _ _ h

theorem lineSearch_fricConds {A : ℕ → ℕ → ℝ} {active : List ℕ}
    {m2a : List (Option ℕ)} {verrExpand rhs piELeft : List ℝ} :
    ∀ (n : ℕ) (piSave dpi : List ℝ) (frac errNorm : ℝ) (cts : List UniContactRT)
      (out : List ℝ × List ℝ × ℝ × List UniContactRT),
      lineSearch A active m2a verrExpand rhs piELeft n piSave dpi frac errNorm cts
        = some out →
      fricConds out.2.2.2 = fricConds cts := by
  intro n
  induction n with
  | zero =>
    intro _ _ _ _ _ _ h
    simp [lineSearch] at h
  | succ n ih =>
    intro piSave dpi frac errNorm cts out h
    rw [lineSearch] at h
    split at h
    · simp at h
    · rename_i cts' err' hudce
      have h1 := udce_fricConds hudce
      dsimp only at h
      split at h
      · simp only [Option.some.injEq] at h
        subst h
        exact h1
      · split at h
        · simp only [Option.some.injEq] at h
          subst h
          exact h1
        · exact (ih _ _ _ _ _ _ h).trans h1

theorem newtonGo_fricConds {prm : SolverParams}
    {lsq : (ℕ → ℕ → ℝ) → List ℝ → List ℝ} {A : ℕ → ℕ → ℝ} {active : List ℕ}
    {m2a : List (Option ℕ)} {verrExpand rhs piELeft : List ℝ} {lsFuel : ℕ} :
    ∀ (k : ℕ) (st nst : NewtonState),
      newtonGo prm lsq A active m2a verrExpand rhs piELeft lsFuel k st = some nst →
      fricConds nst.cts = fricConds st.cts := by
  intro k
  induction k with
  | zero =>
    intro st nst h
    rw [newtonGo] at h
    dsimp only at h
    split at h
    · split at h
      · simp at h
      · rename_i pia' err' errNorm' cts' hls
        have h1 := lineSearch_fricConds _ _ _ _ _ _ _ hls
        split at h
        · simp only [Option.some.injEq] at h
          subst h
          exact h1
        · simp only [Option.some.injEq] at h
          subst h
          exact h1
    · simp only [Option.some.injEq] at h
      subst h
      rfl
  | succ k' ih =>
    intro st nst h
    rw [newtonGo] at h
    dsimp only at h
    split at h
    · split at h
      · simp at h
      · rename_i pia' err' errNorm' cts' hls
        have h1 := lineSearch_fricConds _ _ _ _ _ _ _ hls
        split at h
        · simp only [Option.some.injEq] at h
          subst h
          exact h1
        · split at h
          · simp at h
          · rename_i J' hujs
            exact ((ih _ _ h).trans h1 : _)
    · simp only [Option.some.injEq] at h
      subst h
      rfl

theorem pruneWorst_dichotomy {m2a : List (Option ℕ)} {cts : List UniContactRT}
    {active : List ℕ} {wN : ℕ} {wNv : ℝ} {wF : ℕ} {wFv : ℝ}
    {out : List UniContactRT × List ℕ}
    (h : pruneWorst m2a cts active wN wNv wF wFv = some out)
    (hwf : ¬wNv > wFv →
      ∃ rt, cts.get? wF = some rt ∧ rt.m_frictionCond = .Rolling) :
    (out.2.length < active.length ∧ countRolling out.1 = countRolling cts)
    ∨ (out.2 = active ∧ countRolling out.1 + 1 = countRolling cts) := by
  unfold pruneWorst at h
  split at h
  · split at h
    · simp at h
    · rename_i rt hget
      split at h
      · split at h
        · split at h
          · simp at h
          · rw [Option.map_eq_some'] at h
            obtain ⟨act', herase, hout⟩ := h
            subst hout
            left
            refine ⟨?_, countRolling_set_congr hget rfl⟩
            have := eraseFastAt_length herase
            dsimp only
            omega
        · split at h
          · split at h
            · dsimp only at h
              split at h
              · simp at h
              · rename_i act1 herase1
                split at h
                · simp at h
                · rename_i act2 herase2
                  rw [Option.map_eq_some'] at h
                  obtain ⟨act3, herase3, hout⟩ := h
                  subst hout
                  left
                  refine ⟨?_, countRolling_set_congr hget rfl⟩
                  have e1 := eraseFastAt_length herase1
                  have e2 := eraseFastAt_length herase2
                  have e3 := eraseFastAt_length herase3
                  dsimp only
                  omega
            · simp at h
          · simp at h
      · rename_i hcond
        push_neg at hcond
        obtain ⟨rt2, hget2, hout⟩ := releaseFriction_eq h
        rw [hget, Option.some.injEq] at hget2
        subst hget2
        subst hout
        right
        refine ⟨rfl, countRolling_set_release hget hcond.2 ?_⟩
        have hpr : ({ rt with m_frictionCond := FricCond.Impending }).m_frictionCond
            = FricCond.Impending := rfl
        rw [hpr]
        decide
  · rename_i hngt
    obtain ⟨rt, hget, hroll⟩ := hwf hngt
    obtain ⟨rt2, hget2, hout⟩ := releaseFriction_eq h
    rw [hget, Option.some.injEq] at hget2
    subst hget2
    subst hout
    right
    refine ⟨rfl, countRolling_set_release hget hroll ?_⟩
    have hpr : ({ rt with m_frictionCond := FricCond.Impending }).m_frictionCond
        = FricCond.Impending := rfl
    rw [hpr]
    decide

theorem asStep_next_dichotomy {cx : ASCtx} {st st' : ASState}
    (hb : cx.bounded = []) (hsig : 0 ≤ cx.prm.significantReal)
    (h : asStep cx st = .next st') :
    (st'.active.length < st.active.length
      ∧ countRolling st'.cts = countRolling st.cts)
    ∨ (st'.active = st.active
      ∧ countRolling st'.cts + 1 = countRolling st.cts) := by
  unfold asStep at h
  split at h
  case isTrue =>
    dsimp only at h
    split at h
    · simp at h
    · split at h
      · simp at h
      · simp at h
  case isFalse =>
    dsimp only at h
    split at h
    · simp at h
    · rename_i Jac0 rhs pia0 hinit
      split at h
      · simp at h
      · rename_i cts1 err1 hudce
        split at h
        · simp at h
        · rename_i Jac1 hujs
          split at h
          · simp at h
          · rename_i nst hnewt
            split at h
            · simp at h
            · rename_i pg1 huncond
              split at h
              · simp at h
              · rename_i pg3 wN wNv huniN
                split at h
                · simp at h
                · rename_i pg4 wF wFv hfric
                  split at h
                  · simp at h
                  · rename_i hviol
                    split at h
                    · simp at h
                    · rename_i cts2 active2 hprune
                      simp only [ASStepRes.next.injEq] at h
                      subst h
                      rw [hb] at hviol
                      simp only [projectBounded] at hviol
                      have hforce : ¬(wNv ≤ cx.prm.significantReal
                          ∧ wFv ≤ cx.prm.significantReal) := by
                        intro hc
                        exact hviol ⟨hsig, hc.1, hc.2⟩
                      have h1 := udce_fricConds hudce
                      have h2 := newtonGo_fricConds _ _ _ hnewt
                      have hcongr : countRolling nst.cts = countRolling st.cts :=
                        countRolling_congr (h2.trans h1)
                      have hwf : ¬wNv > wFv →
                          ∃ rt, nst.cts.get? wF = some rt
                            ∧ rt.m_frictionCond = .Rolling := by
                        intro hngt
                        have hwfv : 0 < wFv := by
                          rcases not_and_or.mp hforce with hn | hf
                          · have ha : cx.prm.significantReal < wNv := lt_of_not_le hn
                            have hc : wNv ≤ wFv := le_of_not_lt hngt
                            linarith
                          · have ha : cx.prm.significantReal < wFv := lt_of_not_le hf
                            linarith
                        rcases projectUniFriction_worst _ _ _ _ _ _ hfric with
                          ⟨hwk, hwv⟩ | ⟨j, rt, hj, hroll, hk⟩
                        · exact absurd hwv (ne_of_gt hwfv)
                        · rw [zero_add] at hk
                          subst hk
                          exact ⟨rt, hj, hroll⟩
                      rcases pruneWorst_dichotomy hprune hwf with
                        ⟨hlen, hcnt⟩ | ⟨hact, hcnt⟩
                      · exact Or.inl ⟨hlen, hcnt.trans hcongr⟩
                      · exact Or.inr ⟨hact, by rw [hcnt, hcongr]⟩

/-- C10: with no Bounded constraints and a non-negative violation tolerance,
every pruning iteration of the active-set loop either strictly shrinks
`m_active` while keeping the number of Rolling contacts, or keeps `m_active`
and turns exactly one Rolling contact Impending; hence
`|active| + #Rolling` strictly decreases at each continuation and the loop
never exhausts a fuel larger than that measure (it accepts, crashes on a
failed assertion, or prunes to completion within `|active| + #contacts`
iterations). -/
theorem C10_active_set_terminates (cx : ASCtx)
    (hb : cx.bounded = []) (hsig : 0 ≤ cx.prm.significantReal) :
    (∀ st st', asStep cx st = .next st' →
        (st'.active.length < st.active.length
          ∧ countRolling st'.cts = countRolling st.cts)
        ∨ (st'.active = st.active
          ∧ countRolling st'.cts + 1 = countRolling st.cts))
    ∧ (∀ (fuel : ℕ) (st : ASState),
        st.active.length + countRolling st.cts < fuel →
        activeSetLoop cx fuel st ≠ Res.fuelOut) := by
  refine ⟨fun st st' h => asStep_next_dichotomy hb hsig h, ?_⟩
  intro fuel
  induction fuel with
  | zero =>
    intro st hlt
    exact absurd hlt (Nat.not_lt_zero _)
  | succ n ih =>
    intro st hlt
    rw [activeSetLoop]
    cases hstep : asStep cx st with
    | fail => simp
    | done out => simp
    | next st2 =>
      have hd := asStep_next_dichotomy hb hsig hstep
      have hmeas : st2.active.length + countRolling st2.cts < n := by
        rcases hd with ⟨h1, h2⟩ | ⟨h1, h2⟩
        · omega
        · have h1' : st2.active.length = st.active.length := by rw [h1]
          omega
      exact ih st2 hmeas

def cxC10 : ASCtx := ⟨prmT, lsqDiag, fun _ _ => 0, 0, [], [], [], [], [], 1⟩

theorem C10_witness :
    cxC10.bounded = [] ∧ (0 : ℝ) ≤ cxC10.prm.significantReal
    ∧ (⟨[], [], [], []⟩ : ASState).active.length
        + countRolling (⟨[], [], [], []⟩ : ASState).cts < 1
    ∧ activeSetLoop cxC10 1 ⟨[], [], [], []⟩ ≠ Res.fuelOut := by
  refine ⟨rfl, by norm_num [cxC10, prmT], by simp [countRolling], ?_⟩
  exact (C10_active_set_terminates cxC10 rfl (by norm_num [cxC10, prmT])).2 1
    ⟨[], [], [], []⟩ (by simp [countRolling])

end
